import Mathlib

/-!
Verification of the funboy text-generation pipeline: the template
interpolator (`src/text_interpolator.rs`), the FSL lexer
(`src/interpreter/lexer.rs`, the lexer module used by the FSL
interpreter), the FSL parser (`src/fsl_interpreter/parser.rs`), the
tree-walking evaluator (`src/fsl_interpreter.rs`) and the embedded-code
brace scanner (`Interpreter::interpret_embedded_code`).

Modelling conventions:
* Rust `String`/`&str` data is modelled as `List Char`; byte lengths use
  `utf8Len` (sum of UTF-8 sizes), which agrees with Rust `str::len`.
* Rust `i64` is modelled as `Int`; `+`, `-`, `*` apply `wrap64`
  (release-mode wrapping semantics), `/` and `%` are `Int.tdiv` /
  `Int.tmod` (Rust truncating division and remainder).
* Rust `f64` is modelled as `Rat`.  Only tag-level (Int vs Float vs
  error) behaviour and exact decimal literals are relied on by the
  theorems below; rounding, infinities and NaN are out of scope.
* `String::capacity` is modelled as the byte length (exact allocation);
  theorems below never depend on the difference.
* `rand::thread_rng` draws are modelled by an oracle stream
  `VmState.rand`; sampled values are reduced modulo the range size.
  No theorem depends on a sampled value.
* The `tokio::sync::Mutex` around the substitution database is modelled
  by instrumentation: the evaluator records `acquire` / `lookup` /
  `release` events in the order the source performs them.
-/

namespace Funboy

/-- UTF-8 byte length of a character sequence (Rust `str::len`). -/
def utf8Len (s : List Char) : Nat := (s.map Char.utf8Size).sum

/-- Rust `str::split_whitespace`: maximal runs of non-whitespace
characters, in order; whitespace is dropped.  (Rust uses Unicode
whitespace; `Char.isWhitespace` agrees on ASCII, which is all the
theorems below use.) -/
def splitWsAux : List Char → List Char → List (List Char)
  | [], acc => if acc = [] then [] else [acc.reverse]
  | c :: cs, acc =>
    if c.isWhitespace then
      if acc = [] then splitWsAux cs [] else acc.reverse :: splitWsAux cs []
    else splitWsAux cs (c :: acc)

def splitWs (s : List Char) : List (List Char) := splitWsAux s []

/-! ## Template interpolator (`src/text_interpolator.rs` and
`src/text_interpolator/defaults.rs`) -/

/-- `TEMPLATE_APOSTROPHE` -/
def templApos : Char := Char.ofNat 39
/-- `TEMPLATE_CARROT` (the caret). -/
def templCarrot : Char := Char.ofNat 94
/-- `TEMPLATE_BACK_TICK` -/
def templBacktick : Char := Char.ofNat 96
/-- `TEMPLATE_HEADERS` -/
def templateHeaders : List Char := [templApos, templCarrot, templBacktick]

/-- Rust `str::split_once(pred)`, additionally returning the matched
character (the source recovers it through the `split_char` side
effect of its closure). -/
def splitOnceP (p : Char → Bool) : List Char → Option (List Char × Char × List Char)
  | [] => none
  | c :: cs =>
    if p c then some ([], c, cs)
    else (splitOnceP p cs).map fun x => (c :: x.1, x.2.1, x.2.2)

/-- `TemplateSplit` — fields `pre`/`tmpl`/`suf` are the source's
`prefix`/`template`/`suffix`. -/
structure TemplateSplit where
  pre : List Char
  tmpl : List Char
  suf : List Char
  deriving DecidableEq, Repr

/-- `defaults::extract_template`.  A template name starts at the first
header character and runs through the following maximal alphanumeric
span; if the span is ended by another header character that character is
consumed (chained templates), otherwise the suffix keeps it.  (Rust uses
Unicode `is_alphanumeric`; `Char.isAlphanum` agrees on ASCII.) -/
def extractTemplate (w : List Char) : TemplateSplit :=
  match splitOnceP (templateHeaders.contains ·) w with
  | none => ⟨[], [], []⟩
  | some (pre, _, rest) =>
    match splitOnceP (fun c => !c.isAlphanum) rest with
    | none => ⟨pre, rest, []⟩
    | some (tm, sc, after) =>
      if templateHeaders.contains sc then ⟨pre, tm, after⟩
      else ⟨pre, tm, sc :: after⟩

/-- `TextInterpolator::contains_template`. -/
def containsTemplate (s : List Char) : Bool := s.any (templateHeaders.contains ·)

/-- Interpolation failure: `NestedTemplateLoopError`, or exhaustion of
the fuel that models the source's unbounded recursion. -/
inductive IErr where
  | loop
  | fuelOut
  deriving DecidableEq, Repr

/-- Result of `TextInterpolator::interp`: the output (or error), the
final `template_set`, and the list of names passed to the lookup
closure `map`, in call order (one entry per call, used to model the
time the database lock is held in `GetSub`). -/
structure IRes where
  res : Except IErr (List Char)
  tset : List (List Char)
  looks : List (List Char)
  deriving Repr

/-- The per-word loop of `TextInterpolator::interp` (the `for item in
text.split_whitespace()` body), parameterised by the recursive call
`rec` used for nested templates.  `HashSet<String>` is modelled as a
duplicate-free list: `insert` is `cons` (after a membership test),
`remove` is `List.erase`, `clear` is `[]`. -/
def interpWordsWith (rec : (List Char → Option (List Char)) → List (List Char) → List Char → IRes)
    (map : List Char → Option (List Char)) :
    List (List Char) → List (List Char) → IRes
  | [], tset => ⟨.ok [], tset, []⟩
  | w :: ws, tset =>
    let sp := extractTemplate w
    match map sp.tmpl with
    | none =>
      let r := interpWordsWith rec map ws tset
      ⟨r.res.map (fun tail => w ++ ' ' :: tail), r.tset, sp.tmpl :: r.looks⟩
    | some sub =>
      if tset.contains sp.tmpl then ⟨.error .loop, [], [sp.tmpl]⟩
      else
        let tset1 := sp.tmpl :: tset
        if containsTemplate sub then
          let ri := rec map tset1 sub
          match ri.res with
          | .error e => ⟨.error e, ri.tset, sp.tmpl :: ri.looks⟩
          | .ok sub2 =>
            let r := interpWordsWith rec map ws (ri.tset.erase sp.tmpl)
            ⟨r.res.map (fun tail => sp.pre ++ sub2 ++ sp.suf ++ ' ' :: tail), r.tset,
              sp.tmpl :: (ri.looks ++ r.looks)⟩
        else
          let r := interpWordsWith rec map ws (tset1.erase sp.tmpl)
          ⟨r.res.map (fun tail => sp.pre ++ sub ++ sp.suf ++ ' ' :: tail), r.tset,
            sp.tmpl :: r.looks⟩

/-- `TextInterpolator::interp`.  The fuel bounds the nested-template
recursion depth, which the source leaves unbounded; `interp 0` is the
out-of-fuel artifact.  The final `Except.map List.dropLast` is the
source's `output.pop()` removing the trailing space. -/
def interp : Nat → (List Char → Option (List Char)) → List (List Char) → List Char → IRes
  | 0, _, tset, _ => ⟨.error .fuelOut, tset, []⟩
  | f + 1, map, tset, text =>
    let r := interpWordsWith (interp f) map (splitWs text) tset
    ⟨r.res.map List.dropLast, r.tset, r.looks⟩

/-- Words joined by exactly one space character. -/
def joinSp : List (List Char) → List Char
  | [] => []
  | [w] => w
  | w :: ws => w ++ ' ' :: joinSp ws

theorem joinSp_eq_dropLast :
    ∀ chunks : List (List Char),
      ((chunks.map (· ++ [' '])).flatten).dropLast = joinSp chunks
  | [] => rfl
  | [c] => by simp [joinSp]
  | c :: c' :: rest => by
    have ih := joinSp_eq_dropLast (c' :: rest)
    have hne : ((c' :: rest).map (· ++ [' '])).flatten ≠ [] := by simp
    rw [List.map_cons, List.flatten_cons, List.dropLast_append_of_ne_nil _ hne, ih]
    simp [joinSp]

theorem interpWordsWith_ok_chunks
    (rec : (List Char → Option (List Char)) → List (List Char) → List Char → IRes)
    (map : List Char → Option (List Char)) :
    ∀ (ws tset : List (List Char)) (out : List Char),
      (interpWordsWith rec map ws tset).res = .ok out →
      ∃ chunks : List (List Char), chunks.length = ws.length ∧
        out = (chunks.map (· ++ [' '])).flatten := by
  intro ws
  induction ws with
  | nil =>
    intro tset out h
    simp only [interpWordsWith] at h
    cases h
    exact ⟨[], rfl, rfl⟩
  | cons w ws ih =>
    intro tset out h
    simp only [interpWordsWith] at h
    rcases hm : map (extractTemplate w).tmpl with _ | sub <;> rw [hm] at h
    · rcases hr : (interpWordsWith rec map ws tset).res with e | tail <;>
        rw [hr] at h <;> simp only [Except.map] at h
      · cases h
      · obtain ⟨chunks, hlen, htail⟩ := ih tset tail hr
        cases h
        exact ⟨w :: chunks, by simp [hlen], by simp [htail]⟩
    · by_cases hc : tset.contains (extractTemplate w).tmpl
      · simp only [hc, if_true] at h
        cases h
      · simp only [hc, if_false, Bool.false_eq_true] at h
        by_cases hct : containsTemplate sub
        · simp only [hct, if_true] at h
          rcases hri : (rec map ((extractTemplate w).tmpl :: tset) sub).res with e | sub2 <;>
            rw [hri] at h <;> simp only at h
          · cases h
          · rcases hr : (interpWordsWith rec map ws
                (((rec map ((extractTemplate w).tmpl :: tset) sub).tset).erase
                  (extractTemplate w).tmpl)).res with e | tail <;>
              rw [hr] at h <;> simp only [Except.map] at h
            · cases h
            · obtain ⟨chunks, hlen, htail⟩ := ih _ tail hr
              cases h
              exact ⟨((extractTemplate w).pre ++ sub2 ++ (extractTemplate w).suf) :: chunks,
                by simp [hlen], by simp [htail]⟩
        · simp only [hct, if_false, Bool.false_eq_true] at h
          rcases hr : (interpWordsWith rec map ws
              ((((extractTemplate w).tmpl :: tset)).erase (extractTemplate w).tmpl)).res
              with e | tail <;>
            rw [hr] at h <;> simp only [Except.map] at h
          · cases h
          · obtain ⟨chunks, hlen, htail⟩ := ih _ tail hr
            cases h
            exact ⟨((extractTemplate w).pre ++ sub ++ (extractTemplate w).suf) :: chunks,
              by simp [hlen], by simp [htail]⟩

theorem splitOnceP_eq_none (p : Char → Bool) :
    ∀ w : List Char, (∀ c ∈ w, p c = false) → splitOnceP p w = none := by
  intro w
  induction w with
  | nil => intro _; rfl
  | cons c cs ih =>
    intro h
    simp [splitOnceP, h c (by simp), ih fun x hx => h x (by simp [hx])]

theorem extractTemplate_no_header (w : List Char)
    (h : ∀ c ∈ w, templateHeaders.contains c = false) :
    extractTemplate w = ⟨[], [], []⟩ := by
  unfold extractTemplate
  rw [splitOnceP_eq_none _ w h]

theorem splitWsAux_mem :
    ∀ (s acc w : List Char), w ∈ splitWsAux s acc → ∀ c ∈ w, c ∈ s ∨ c ∈ acc := by
  intro s
  induction s with
  | nil =>
    intro acc w hw c hc
    by_cases ha : acc = [] <;> simp [splitWsAux, ha] at hw
    subst hw
    exact .inr (by simpa using hc)
  | cons d ds ih =>
    intro acc w hw c hc
    by_cases hd : d.isWhitespace
    · by_cases ha : acc = []
      · rw [splitWsAux, if_pos hd, if_pos ha] at hw
        rcases ih [] w hw c hc with h | h
        · exact .inl (by simp [h])
        · cases h
      · rw [splitWsAux, if_pos hd, if_neg ha] at hw
        rcases List.mem_cons.mp hw with hw | hw
        · subst hw
          exact .inr (by simpa using hc)
        · rcases ih [] w hw c hc with h | h
          · exact .inl (by simp [h])
          · cases h
    · rw [splitWsAux, if_neg hd] at hw
      rcases ih (d :: acc) w hw c hc with h | h
      · exact .inl (by simp [h])
      · rcases (by simpa using h : c = d ∨ c ∈ acc) with h | h
        · exact .inl (by simp [h])
        · exact .inr h

theorem splitWs_mem (s w : List Char) (hw : w ∈ splitWs s) : ∀ c ∈ w, c ∈ s := by
  intro c hc
  rcases splitWsAux_mem s [] w hw c hc with h | h
  · exact h
  · cases h

theorem interpWordsWith_all_plain
    (rec : (List Char → Option (List Char)) → List (List Char) → List Char → IRes)
    (map : List Char → Option (List Char)) (hmape : map [] = none) :
    ∀ (ws tset : List (List Char)), (∀ w ∈ ws, extractTemplate w = ⟨[], [], []⟩) →
      interpWordsWith rec map ws tset =
        ⟨.ok ((ws.map (· ++ [' '])).flatten), tset, ws.map fun _ => []⟩ := by
  intro ws
  induction ws with
  | nil => intro tset _; rfl
  | cons w ws ih =>
    intro tset h
    have hw := h w (by simp)
    simp [interpWordsWith, hw, hmape, ih tset fun x hx => h x (by simp [hx]), Except.map]

/-- **C10**: on every successful interpolation the output is the per-word
results joined by exactly one space (`joinSp`), with one word per
element of `splitWs` of the input — so every maximal whitespace run of
the input is collapsed and leading/trailing whitespace is removed; and
for an input containing no template-header characters at all (with a
lookup returning nothing for the empty name) the output is exactly
`joinSp (splitWs input)`, hence equal to the input iff the input's
whitespace is already normalised. -/
theorem C10_interp_whitespace_normalization :
    (∀ (f : Nat) (map : List Char → Option (List Char)) (tset : List (List Char))
        (text out : List Char),
      (interp (f + 1) map tset text).res = .ok out →
      ∃ chunks : List (List Char), chunks.length = (splitWs text).length ∧
        out = joinSp chunks) ∧
    (∀ (f : Nat) (map : List Char → Option (List Char)) (text : List Char),
      map [] = none →
      (∀ c ∈ text, templateHeaders.contains c = false) →
      interp (f + 1) map [] text =
        ⟨.ok (joinSp (splitWs text)), [], (splitWs text).map fun _ => []⟩) := by
  constructor
  · intro f map tset text out h
    simp only [interp] at h
    rcases hr : (interpWordsWith (interp f) map (splitWs text) tset).res with e | full <;>
      rw [hr] at h <;> simp only [Except.map] at h
    · cases h
    · obtain ⟨chunks, hlen, hfull⟩ := interpWordsWith_ok_chunks _ _ _ _ _ hr
      cases h
      exact ⟨chunks, hlen, by rw [hfull, joinSp_eq_dropLast]⟩
  · intro f map text hmape hh
    have hws : ∀ w ∈ splitWs text, extractTemplate w = ⟨[], [], []⟩ := fun w hw =>
      extractTemplate_no_header w fun c hc => hh c (splitWs_mem text w hw c hc)
    simp only [interp]
    rw [interpWordsWith_all_plain _ map hmape _ _ hws]
    simp [Except.map, joinSp_eq_dropLast]

/-- Witness for C10 at the concrete input `" a   b "` and the trivial
lookup. -/
theorem C10_witness :
    (∃ chunks : List (List Char), chunks.length = (splitWs " a   b ".data).length ∧
      "a b".data = joinSp chunks) ∧
    interp (2 + 1) (fun _ => Option.none) [] " a   b ".data =
      ⟨.ok (joinSp (splitWs " a   b ".data)), [], (splitWs " a   b ".data).map fun _ => []⟩ :=
  ⟨C10_interp_whitespace_normalization.1 2 (fun _ => Option.none) [] " a   b ".data
      "a b".data (by rfl),
    C10_interp_whitespace_normalization.2 2 (fun _ => Option.none) " a   b ".data rfl
      (by decide)⟩

/-- **C5**: for every lookup function, a self-referential template —
one whose substitution's first word re-requests the name still being
resolved — fails with the nested-template-loop error and leaves the
in-progress set cleared (`[]`); and a template name is removed from the
in-progress set immediately after it resolves, so two independent uses
of the same non-cyclic template in one interpolation call both
succeed. -/
theorem C5_interp_cycle_detection :
    (∀ (map : List Char → Option (List Char)) (f : Nat) (text w sub w2 : List Char)
        (ws2 : List (List Char)),
      splitWs text = [w] →
      map (extractTemplate w).tmpl = some sub →
      containsTemplate sub = true →
      splitWs sub = w2 :: ws2 →
      (extractTemplate w2).tmpl = (extractTemplate w).tmpl →
      interp (f + 2) map [] text =
        ⟨.error .loop, [], [(extractTemplate w).tmpl, (extractTemplate w).tmpl]⟩) ∧
    (∀ (map : List Char → Option (List Char)) (f : Nat) (text w1 w2 sub : List Char),
      splitWs text = [w1, w2] →
      (extractTemplate w2).tmpl = (extractTemplate w1).tmpl →
      map (extractTemplate w1).tmpl = some sub →
      containsTemplate sub = false →
      interp (f + 1) map [] text =
        ⟨.ok ((extractTemplate w1).pre ++ sub ++ (extractTemplate w1).suf ++
            ' ' :: ((extractTemplate w2).pre ++ sub ++ (extractTemplate w2).suf)),
          [], [(extractTemplate w1).tmpl, (extractTemplate w1).tmpl]⟩) := by
  constructor
  · intro map f text w sub w2 ws2 ht hm hct hs hw2
    have hinner :
        interpWordsWith (interp f) map (splitWs sub) [(extractTemplate w).tmpl] =
          ⟨.error .loop, [], [(extractTemplate w).tmpl]⟩ := by
      rw [hs]
      simp only [interpWordsWith, hw2, hm]
      simp
    simp only [interp, ht, interpWordsWith, hm]
    simp only [List.contains_nil, Bool.false_eq_true, if_false, hct, if_true]
    rw [hinner]
    simp [Except.map]
  · intro map f text w1 w2 sub ht hw2 hm hct
    simp only [interp, ht, interpWordsWith, hw2, hm]
    simp only [List.contains_nil, Bool.false_eq_true, if_false, hct]
    simp only [List.erase_cons_head, List.contains_nil]
    simp [Except.map, List.dropLast_append_of_ne_nil]
    have h2 : (' ' :: ((extractTemplate w2).pre ++ (sub ++ ((extractTemplate w2).suf ++ [' '])))) =
        (' ' :: ((extractTemplate w2).pre ++ (sub ++ (extractTemplate w2).suf))) ++ [' '] := by
      simp
    rw [h2, List.dropLast_concat]

/-- Witness for C5: the self-referential lookup `infinite ↦ 'infinite`
fails with the loop error and an empty in-progress set, while two uses
of `'a` under `a ↦ X` both succeed. -/
theorem C5_witness :
    interp (0 + 2) (fun n => if n = "infinite".data then some "'infinite".data else Option.none)
        [] "'infinite".data =
      ⟨.error .loop, [], ["infinite".data, "infinite".data]⟩ ∧
    interp (1 + 1) (fun n => if n = "a".data then some "X".data else Option.none)
        [] "'a 'a".data =
      ⟨.ok ("X".data ++ ' ' :: "X".data), [], ["a".data, "a".data]⟩ := by
  constructor
  · have h := C5_interp_cycle_detection.1
      (fun n => if n = "infinite".data then some "'infinite".data else Option.none) 0
      "'infinite".data "'infinite".data "'infinite".data "'infinite".data []
      (by decide) (by decide) (by decide) (by decide) (by decide)
    simpa using h
  · have h := C5_interp_cycle_detection.2
      (fun n => if n = "a".data then some "X".data else Option.none) 1
      "'a 'a".data "'a".data "'a".data "X".data
      (by decide) (by decide) (by decide) (by decide)
    simpa using h

/-! ## FSL lexer (`tokenize`, from `src/interpreter/lexer.rs`, the lexer
module of the FSL interpreter) -/

inductive TokenType where
  | openingQuote | closingQuote | openingParenthesis | closingParenthesis
  | comma | command | text | number | identifier | keyword
  deriving DecidableEq, Repr

structure Token where
  tokenType : TokenType
  value : List Char
  deriving DecidableEq, Repr

/-- Rust `str::trim` (`Char.isWhitespace` agrees with Rust on ASCII). -/
def trimChars (s : List Char) : List Char :=
  ((s.dropWhile Char.isWhitespace).reverse.dropWhile Char.isWhitespace).reverse

/-- Substring containment, Rust `str::contains(&str)`. -/
def containsSub (l sub : List Char) : Bool := l.tails.any (sub.isPrefixOf ·)

/-- Rust `str::split_once(&str)`: split around the first occurrence. -/
def splitOnceSub (l sub : List Char) : Option (List Char × List Char) :=
  if sub.isPrefixOf l then some ([], l.drop sub.length)
  else
    match l with
    | [] => none
    | c :: cs => (splitOnceSub cs sub).map fun x => (c :: x.1, x.2)

def digitsToNat (s : List Char) : Nat := s.foldl (fun a c => a * 10 + (c.toNat - 48)) 0

/-- Rust `str::parse::<i64>` — optional sign, decimal digits, 64-bit
range check. -/
def parseI64 (s : List Char) : Option Int :=
  let core : List Char → Bool → Option Int := fun ds neg =>
    if ds ≠ [] ∧ ds.all Char.isDigit then
      let n := digitsToNat ds
      if neg then (if n ≤ 2 ^ 63 then some (-(n : Int)) else none)
      else (if n ≤ 2 ^ 63 - 1 then some (n : Int) else none)
    else none
  match s with
  | '+' :: r => core r false
  | '-' :: r => core r true
  | _ => core s false

/-- Leading decimal digits and the rest. -/
def splitDigits : List Char → List Char × List Char
  | [] => ([], [])
  | c :: cs =>
    if c.isDigit then
      let x := splitDigits cs
      (c :: x.1, x.2)
    else ([], c :: cs)

/-- Exponent part of the Rust `f64` literal grammar (empty, or
`e`/`E`, optional sign, at least one digit). -/
def expOk : List Char → Bool
  | [] => true
  | c :: rest =>
    if c = 'e' ∨ c = 'E' then
      let rest' := match rest with
        | d :: ds => if d = '+' ∨ d = '-' then ds else rest
        | [] => []
      decide (rest' ≠ []) && rest'.all Char.isDigit
    else false

def mantissaOk (s : List Char) : Bool :=
  let x := splitDigits s
  match x.2 with
  | '.' :: r2 =>
    let y := splitDigits r2
    (decide (x.1 ≠ []) || decide (y.1 ≠ [])) && expOk y.2
  | _ => decide (x.1 ≠ []) && expOk x.2

def isF64Special (s : List Char) : Bool :=
  let l := s.map Char.toLower
  l = "inf".data || l = "infinity".data || l = "nan".data

/-- Acceptance of Rust `str::parse::<f64>` (`inf`/`infinity`/`nan`
case-insensitively, or a decimal mantissa with optional exponent). -/
def isF64Lit (s : List Char) : Bool :=
  let b := match s with
    | '+' :: r => r
    | '-' :: r => r
    | _ => s
  isF64Special b || mantissaOk b

/-- The exact rational value of a decimal `f64` literal (`none` for
`inf`/`infinity`/`nan` and ill-formed input).  The theorems below never
depend on `f64` rounding, so the exact decimal value stands in for the
nearest-double value. -/
def parseF64Rat (s : List Char) : Option Rat :=
  let sb : Bool × List Char := match s with
    | '-' :: r => (true, r)
    | '+' :: r => (false, r)
    | _ => (false, s)
  let neg := sb.1
  let b := sb.2
  if isF64Special b then none
  else if mantissaOk b then
    let x := splitDigits b
    let fr : List Char × List Char := match x.2 with
      | '.' :: r2 => splitDigits r2
      | _ => ([], x.2)
    let er : Bool × List Char := match fr.2 with
      | _ :: rest =>
        match rest with
        | '-' :: ds => (true, ds)
        | '+' :: ds => (false, ds)
        | _ => (false, rest)
      | [] => (false, [])
    let mant : Rat := (digitsToNat (x.1 ++ fr.1) : Rat) / (10 : Rat) ^ fr.1.length
    let ex : Nat := digitsToNat er.2
    let mag : Rat := if er.1 then mant / (10 : Rat) ^ ex else mant * (10 : Rat) ^ ex
    some (if neg then -mag else mag)
  else none

/-- `KEYWORDS` membership plus `f64` parseability — the classification
of a non-symbol chunk emitted before `,` or `)`. -/
def classifyValue (v : List Char) : TokenType :=
  if isF64Lit v then .number
  else if v = "true".data ∨ v = "false".data then .keyword
  else .identifier

structure LexState where
  tokens : List Token
  buffer : List Char
  insideQuote : Bool
  incomplete : Option (List Char)
  deriving Repr

/-- One character step of `tokenize`: push onto the buffer, look for the
first active symbol contained in it, and emit tokens accordingly.  The
final wildcard arm models the source's `continue` (quote mode) /
`panic!` (unreachable outside quotes: the buffer is kept, mirroring that
no token is produced). -/
def lexStep (st : LexState) (c : Char) : LexState :=
  let buffer := st.buffer ++ [c]
  let symbols : List (List Char) :=
    if st.insideQuote then [['\\', '"'], ['"']] else [[','], ['('], [')'], ['"']]
  match symbols.find? (containsSub buffer ·) with
  | none => { st with buffer := buffer }
  | some sym =>
    let left := ((splitOnceSub buffer sym).getD ([], [])).1
    if sym = ['\\', '"'] ∧ st.insideQuote then
      let x := (splitOnceSub buffer ['\\']).getD ([], [])
      let text := x.1 ++ x.2
      { st with
        buffer := [],
        incomplete := some ((st.incomplete.getD []) ++ text) }
    else if sym = ['"'] then
      if st.insideQuote then
        { st with
          buffer := [],
          insideQuote := false,
          incomplete := none,
          tokens := st.tokens ++
            [⟨.text, (st.incomplete.getD []) ++ left⟩, ⟨.closingQuote, ['"']⟩] }
      else
        { st with
          buffer := [],
          insideQuote := true,
          tokens := st.tokens ++ [⟨.openingQuote, ['"']⟩] }
    else if sym = ['('] ∧ ¬st.insideQuote then
      { st with
        buffer := [],
        tokens := st.tokens ++ [⟨.command, trimChars left⟩, ⟨.openingParenthesis, ['(']⟩] }
    else if sym = [')'] ∧ ¬st.insideQuote then
      { st with
        buffer := [],
        tokens := st.tokens ++
          (if buffer = [')'] then [] else
            [⟨classifyValue (trimChars left), trimChars left⟩]) ++
          [⟨.closingParenthesis, [')']⟩] }
    else if sym = [','] ∧ ¬st.insideQuote then
      { st with
        buffer := [],
        tokens := st.tokens ++
          (if buffer = [','] then [] else
            [⟨classifyValue (trimChars left), trimChars left⟩]) ++
          [⟨.comma, [',']⟩] }
    else
      { st with buffer := buffer }

/-- `lexer::tokenize`.  Any unterminated buffer or quote at end of input
is discarded, as in the source. -/
def tokenize (code : List Char) : List Token :=
  (code.foldl lexStep ⟨[], [], false, none⟩).tokens

/-! ## FSL syntax (`src/fsl_interpreter/parser.rs`) -/

inductive CommandType where
  | Add | Subtract | Multiply | Divide | Mod | SelectRandom | RandomRange
  | Capitalize | Upper | Lower | RemoveWhitespace | Repeat | While | Copy | Paste
  | Print | Concatenate | IfThen | IfThenElse | Not | And | Or | Eq | Gt | Lt
  | StartsWith | EndsWith | GetSub | NewLine | Index | Slice | Length | Swap
  | Insert | Remove | Replace
  deriving DecidableEq, Repr

/-- `CommandType::to_str`. -/
def ctName : CommandType → List Char
  | .Add => "add".data
  | .Subtract => "sub".data
  | .Multiply => "mul".data
  | .Divide => "div".data
  | .Mod => "mod".data
  | .SelectRandom => "select_random".data
  | .RandomRange => "random_range".data
  | .Capitalize => "capitalize".data
  | .Upper => "upper".data
  | .Lower => "lower".data
  | .RemoveWhitespace => "remove_whitespace".data
  | .Repeat => "repeat".data
  | .While => "while".data
  | .Copy => "copy".data
  | .Paste => "paste".data
  | .Print => "print".data
  | .Concatenate => "concat".data
  | .IfThen => "if_then".data
  | .IfThenElse => "if_then_else".data
  | .Not => "not".data
  | .And => "and".data
  | .Or => "or".data
  | .Eq => "eq".data
  | .Gt => "gt".data
  | .Lt => "lt".data
  | .StartsWith => "starts_with".data
  | .EndsWith => "ends_with".data
  | .GetSub => "get_sub".data
  | .NewLine => "nl".data
  | .Index => "index".data
  | .Slice => "slice".data
  | .Length => "length".data
  | .Swap => "swap".data
  | .Insert => "insert".data
  | .Remove => "remove".data
  | .Replace => "replace".data

/-- `CommandType::from_str`. -/
def ctFromStr (s : List Char) : Except (List Char) CommandType :=
  if s = "add".data then .ok .Add
  else if s = "sub".data then .ok .Subtract
  else if s = "mul".data then .ok .Multiply
  else if s = "div".data then .ok .Divide
  else if s = "mod".data then .ok .Mod
  else if s = "select_random".data then .ok .SelectRandom
  else if s = "random_range".data then .ok .RandomRange
  else if s = "capitalize".data then .ok .Capitalize
  else if s = "upper".data then .ok .Upper
  else if s = "lower".data then .ok .Lower
  else if s = "repeat".data then .ok .Repeat
  else if s = "while".data then .ok .While
  else if s = "copy".data then .ok .Copy
  else if s = "paste".data then .ok .Paste
  else if s = "print".data then .ok .Print
  else if s = "remove_whitespace".data then .ok .RemoveWhitespace
  else if s = "concat".data then .ok .Concatenate
  else if s = "if_then".data then .ok .IfThen
  else if s = "if_then_else".data then .ok .IfThenElse
  else if s = "not".data then .ok .Not
  else if s = "and".data then .ok .And
  else if s = "or".data then .ok .Or
  else if s = "eq".data then .ok .Eq
  else if s = "gt".data then .ok .Gt
  else if s = "lt".data then .ok .Lt
  else if s = "starts_with".data then .ok .StartsWith
  else if s = "ends_with".data then .ok .EndsWith
  else if s = "get_sub".data then .ok .GetSub
  else if s = "nl".data then .ok .NewLine
  else if s = "index".data then .ok .Index
  else if s = "slice".data then .ok .Slice
  else if s = "length".data then .ok .Length
  else if s = "swap".data then .ok .Swap
  else if s = "insert".data then .ok .Insert
  else if s = "remove".data then .ok .Remove
  else if s = "replace".data then .ok .Replace
  else .error ("Invalid command ".data ++ s)

mutual
/-- `ValueType`. -/
inductive Val where
  | text (s : List Char)
  | int (n : Int)
  | float (q : Rat)
  | bool (b : Bool)
  | list (elems : List Val)
  | ident (s : List Char)
  | cmd (c : Cmd)
  | none
  deriving Repr

/-- `Command` — a command kind with its ordered argument list. -/
inductive Cmd where
  | mk (ct : CommandType) (args : List Val)
  deriving Repr
end

def Cmd.ct : Cmd → CommandType
  | .mk ct _ => ct

def Cmd.args : Cmd → List Val
  | .mk _ args => args

/-- `ERR_LOCATION_WIDTH` -/
def ERR_LOCATION_WIDTH : Nat := 3

/-- `TokenIndex::gen_err`: a syntax error with a window of surrounding
token text. -/
def genSyntaxErr (toks : List Token) (i : Nat) (desc : List Char) : List Char :=
  let left := i - ERR_LOCATION_WIDTH
  let right := if i + ERR_LOCATION_WIDTH > toks.length then toks.length
    else i + ERR_LOCATION_WIDTH
  "Syntax\nLocation: ".data ++
    (((toks.drop left).take (right - left)).map (·.value)).flatten ++
    "\nDescription: ".data ++ desc

/-- `TokenIndex::comes_after` (note the saturating `i - 1`: at index 0
the token is compared with itself, as in the source). -/
def comesAfter (toks : List Token) (i : Nat) (kinds : List TokenType) : Bool :=
  match toks.get? (i - 1) with
  | some t => kinds.contains t.tokenType
  | none => false

/-- `TokenIndex::comes_before`. -/
def comesBefore (toks : List Token) (i : Nat) (kinds : List TokenType) : Bool :=
  match toks.get? (i + 1) with
  | some t => kinds.contains t.tokenType
  | none => false

/-- Append an argument to the command frame on top of the stack. -/
def pushArg (stack : List (Cmd × Nat)) (v : Val) : List (Cmd × Nat) :=
  match stack with
  | [] => []
  | (c, ti) :: rest => (.mk c.ct (c.args ++ [v]), ti) :: rest

/-- The end-of-input check of `parse`: a non-empty stack is a missing
closing parenthesis, reported at the most recently opened command. -/
def parseEnd (toks : List Token) (stack : List (Cmd × Nat)) (cmds : List Cmd) :
    Except (List Char) (List Cmd) :=
  match stack with
  | [] => .ok cmds
  | (c, ti) :: _ =>
    .error (genSyntaxErr toks ti
      ("Missing closing parenthesis within command **".data ++ ctName c.ct ++ "**".data))

/-- The token loop of `parse`: `rest` is the still-unprocessed suffix of
`toks` and `i` the index of its head within `toks` (used for the
look-behind/look-ahead checks and error windows). -/
def parseLoop (toks : List Token) :
    List Token → Nat → List (Cmd × Nat) → List Cmd → Except (List Char) (List Cmd)
  | [], _, stack, cmds => parseEnd toks stack cmds
  | t :: rest, i, stack, cmds =>
    match t.tokenType with
    | .openingQuote =>
      if stack.length = 0 then
        .error (genSyntaxErr toks i "Opening quote outside of a command".data)
      else if ¬comesAfter toks i [.comma, .openingParenthesis] then
        .error (genSyntaxErr toks i "Misplaced opening quote".data)
      else parseLoop toks rest (i + 1) stack cmds
    | .closingQuote =>
      if stack.length = 0 then
        .error (genSyntaxErr toks i "Closing quote outside of a command".data)
      else if ¬comesBefore toks i [.comma, .closingParenthesis] then
        .error (genSyntaxErr toks i "Misplaced closing quote".data)
      else if ¬comesAfter toks i [.text] then
        .error (genSyntaxErr toks i "Misplace closing quote".data)
      else parseLoop toks rest (i + 1) stack cmds
    | .openingParenthesis =>
      if ¬comesAfter toks i [.command] then
        .error (genSyntaxErr toks i "Opening parenthesis must come after a command".data)
      else parseLoop toks rest (i + 1) stack cmds
    | .closingParenthesis =>
      match stack with
      | (c, _) :: stack' =>
        if stack'.length = 0 then parseLoop toks rest (i + 1) stack' (cmds ++ [c])
        else parseLoop toks rest (i + 1) (pushArg stack' (.cmd c)) cmds
      | [] =>
        .error (genSyntaxErr toks i "Closing parenthesis must close a commands arguments".data)
    | .comma =>
      if stack.length = 0 then
        .error (genSyntaxErr toks i "Comma outside of a command".data)
      else parseLoop toks rest (i + 1) stack cmds
    | .command =>
      if ¬comesBefore toks i [.openingParenthesis] then
        .error (genSyntaxErr toks i "Command must come before opening parenthesis".data)
      else if t.value = [] then
        .error (genSyntaxErr toks i "Opening parenthesis must come after a command".data)
      else
        match ctFromStr t.value with
        | .error e => .error e
        | .ok ct => parseLoop toks rest (i + 1) ((Cmd.mk ct [], i) :: stack) cmds
    | .text =>
      if stack.length = 0 then
        .error (genSyntaxErr toks i "Text outside of command".data)
      else if ¬comesAfter toks i [.openingQuote] then
        .error (genSyntaxErr toks i "Text must come after opening quotes".data)
      else if ¬comesBefore toks i [.closingQuote] then
        .error (genSyntaxErr toks i "Text must come before closing quotes".data)
      else parseLoop toks rest (i + 1) (pushArg stack (.text t.value)) cmds
    | .number =>
      if stack.length = 0 then
        .error (genSyntaxErr toks i "Number outside of command".data)
      else if ¬comesAfter toks i [.comma, .openingParenthesis] then
        .error (genSyntaxErr toks i "Number outside of command".data)
      else
        match parseI64 t.value with
        | some n => parseLoop toks rest (i + 1) (pushArg stack (.int n)) cmds
        | none =>
          -- the source's `expect` relies on the lexer's `Number`
          -- classification; `getD 0` stands in for the impossible case
          parseLoop toks rest (i + 1)
            (pushArg stack (.float ((parseF64Rat t.value).getD 0))) cmds
    | .identifier =>
      if stack.length = 0 then
        .error (genSyntaxErr toks i "Identifier outside of command".data)
      else if ¬comesAfter toks i [.comma, .openingParenthesis] then
        .error (genSyntaxErr toks i "Identifier outside of command".data)
      else parseLoop toks rest (i + 1) (pushArg stack (.ident t.value)) cmds
    | .keyword =>
      if stack.length = 0 then
        .error (genSyntaxErr toks i "Keyword outside of command".data)
      else if ¬comesAfter toks i [.comma, .openingParenthesis] then
        .error (genSyntaxErr toks i "Keyword outside of command".data)
      else if t.value = "true".data then
        parseLoop toks rest (i + 1) (pushArg stack (.bool true)) cmds
      else if t.value = "false".data then
        parseLoop toks rest (i + 1) (pushArg stack (.bool false)) cmds
      else .error (genSyntaxErr toks i "Non existant keyword".data)

/-- `parser::parse`. -/
def parse (toks : List Token) : Except (List Char) (List Cmd) :=
  parseLoop toks toks 0 [] []

/-- **C7 counterexample**: the token sequence of `print(,)` has a comma
immediately after an opening parenthesis, yet `parse` accepts it (the
comma case only requires a non-empty command stack), producing a `print`
command — so the claimed rejection of commas directly following `(`
does not exist in the code. -/
theorem C7_counterexample :
    tokenize "print(,)".data =
      [⟨.command, "print".data⟩, ⟨.openingParenthesis, ['(']⟩,
        ⟨.comma, [',']⟩, ⟨.closingParenthesis, [')']⟩] ∧
    parse [⟨.command, "print".data⟩, ⟨.openingParenthesis, ['(']⟩,
        ⟨.comma, [',']⟩, ⟨.closingParenthesis, [')']⟩] =
      .ok [Cmd.mk .Print []] := by
  exact ⟨rfl, rfl⟩

/-- **C7 (amended)**: a comma reached while the command stack is empty
is rejected with the `Comma outside of a command` syntax error
(whatever follows); with a non-empty stack a comma is skipped without
touching the stack or the parsed commands — in particular a comma
immediately after an opening parenthesis is accepted, and no
leading-empty-argument check exists. -/
theorem C7_parse_comma_rule :
    (∀ (toks rest : List Token) (i : Nat) (cmds : List Cmd) (t : Token),
      t.tokenType = .comma →
      parseLoop toks (t :: rest) i [] cmds =
        .error (genSyntaxErr toks i "Comma outside of a command".data)) ∧
    (∀ (toks rest : List Token) (i : Nat) (stack : List (Cmd × Nat)) (cmds : List Cmd)
        (t : Token),
      t.tokenType = .comma → stack ≠ [] →
      parseLoop toks (t :: rest) i stack cmds = parseLoop toks rest (i + 1) stack cmds) := by
  constructor
  · intro toks rest i cmds t ht
    simp [parseLoop, ht]
  · intro toks rest i stack cmds t ht hs
    have : stack.length ≠ 0 := fun h => hs (List.length_eq_zero.mp h)
    simp [parseLoop, ht, this]

/-- Witness for C7 (amended): a leading comma is rejected; the comma of
`print(,)` is skipped. -/
theorem C7_witness :
    parseLoop [⟨.comma, [',']⟩] [⟨.comma, [',']⟩] 0 [] [] =
      .error (genSyntaxErr [⟨.comma, [',']⟩] 0 "Comma outside of a command".data) ∧
    parseLoop (tokenize "print(,)".data) [⟨.comma, [',']⟩, ⟨.closingParenthesis, [')']⟩] 2
        [(Cmd.mk .Print [], 0)] [] =
      parseLoop (tokenize "print(,)".data) [⟨.closingParenthesis, [')']⟩] 3
        [(Cmd.mk .Print [], 0)] [] :=
  ⟨C7_parse_comma_rule.1 [⟨.comma, [',']⟩] [] 0 [] ⟨.comma, [',']⟩ rfl,
    C7_parse_comma_rule.2 (tokenize "print(,)".data) [⟨.closingParenthesis, [')']⟩] 2
      [(Cmd.mk .Print [], 0)] [] ⟨.comma, [',']⟩ rfl (by simp)⟩

/-! ## Value sizes and the variable store (`VarMap`,
`src/fsl_interpreter.rs`) -/

/-- `size_of::<ValueType>()` on a 64-bit target.  The exact constant is
irrelevant to every theorem below (they only use that it is fixed); 32
bytes corresponds to the largest variant plus tag. -/
def VALUE_TYPE_SIZE : Nat := 32

/-- `VAR_MAP_BYTE_LIMIT = 65535 * 100`. -/
def VAR_MAP_BYTE_LIMIT : Nat := 65535 * 100

mutual
/-- `ValueType::get_size`.  Rust reads `String::capacity`, which equals
the byte length for exactly-allocated strings; the model uses the byte
length (`utf8Len`).  `saturating_add` needs no model on `Nat`. -/
def getSize : Val → Nat
  | .text s => VALUE_TYPE_SIZE + utf8Len s
  | .int _ => VALUE_TYPE_SIZE
  | .float _ => VALUE_TYPE_SIZE
  | .bool _ => VALUE_TYPE_SIZE
  | .list l => VALUE_TYPE_SIZE + getSizeList l
  | .ident s => VALUE_TYPE_SIZE + utf8Len s
  | .cmd c => VALUE_TYPE_SIZE + getSizeCmd c
  | .none => VALUE_TYPE_SIZE

def getSizeCmd : Cmd → Nat
  | .mk _ args => getSizeList args

def getSizeList : List Val → Nat
  | [] => 0
  | v :: vs => getSize v + getSizeList vs
end

/-- `VarMap`: the `HashMap<String, ValueType>` plus the `size` field. -/
structure VarMap where
  data : List (List Char × Val)
  size : Nat

/-- `VarMap::new`. -/
def VarMap.new : VarMap := ⟨[], 0⟩

/-- `HashMap::insert`: replaces the value stored at an existing key. -/
def updateAssoc (m : List (List Char × Val)) (k : List Char) (v : Val) :
    List (List Char × Val) :=
  match m with
  | [] => [(k, v)]
  | (k', v') :: rest => if k' = k then (k, v) :: rest else (k', v') :: updateAssoc rest k v

/-- `VarMap::insert_var`.  Note that the source checks
`self.size.saturating_add(value.get_size())` against the ceiling but
never writes `self.size` (it stays at its construction value `0`); the
model reproduces this faithfully. -/
def VarMap.insertVar (m : VarMap) (name : List Char) (v : Val) :
    Except (List Char) VarMap :=
  if m.size + getSize v ≤ VAR_MAP_BYTE_LIMIT then
    .ok ⟨updateAssoc m.data name v, m.size⟩
  else .error "interpreter memory limit of 6553500 bytes exceeded".data

/-- `VarMap::get_var`. -/
def VarMap.getVar (m : VarMap) (name : List Char) : Option Val :=
  (m.data.find? (fun p => p.1 == name)).map (·.2)

theorem utf8Len_replicate_a (n : Nat) : utf8Len (List.replicate n 'a') = n := by
  simp [utf8Len, List.map_replicate, List.sum_replicate, Char.utf8Size]

/-- A 6-megabyte text value: individually under the store ceiling, but
two of them together exceed it. -/
def bigText : Val := .text (List.replicate 6000000 'a')

/-- **C2 (code bug)**: `VarMap.size` is written only at construction, so
no running byte-size total exists.  Starting from the empty store, two
successive insertions of `bigText` (combined size well past the
`VAR_MAP_BYTE_LIMIT` ceiling) both succeed, and the store's `size`
field still reads `0` — the claimed rejection of the second insertion
does not happen. -/
theorem C2_size_never_updated :
    ∃ m1 m2 : VarMap,
      VarMap.new.insertVar "a".data bigText = .ok m1 ∧
      m1.insertVar "b".data bigText = .ok m2 ∧
      getSize bigText + getSize bigText > VAR_MAP_BYTE_LIMIT ∧
      m2.size = 0 := by
  have hsz : getSize bigText = 6000032 := by
    unfold bigText
    rw [getSize, utf8Len_replicate_a, VALUE_TYPE_SIZE]
  refine ⟨⟨[("a".data, bigText)], 0⟩, ⟨[("a".data, bigText), ("b".data, bigText)], 0⟩,
    ?_, ?_, ?_, rfl⟩
  · rw [VarMap.insertVar]
    rw [if_pos (by rw [hsz]; norm_num [VarMap.new, VAR_MAP_BYTE_LIMIT])]
    rfl
  · rw [VarMap.insertVar]
    rw [if_pos (by rw [hsz]; norm_num [VAR_MAP_BYTE_LIMIT])]
    rfl
  · rw [hsz]; norm_num [VAR_MAP_BYTE_LIMIT]

/-! ## Evaluator (`src/fsl_interpreter.rs`) -/

/-- Rust `i64` `Display`. -/
def intToChars (n : Int) : List Char :=
  if n < 0 then '-' :: Nat.toDigits 10 (-n).toNat else Nat.toDigits 10 n.toNat

/-- Stringification of a float value.  Rust formats `f64` via `Display`;
the model prints integral values like integers (agreeing with Rust) and
non-integral ones as a fraction (an abstraction — no theorem below
inspects a non-integral float's string). -/
def ratToChars (q : Rat) : List Char :=
  if q.den = 1 then intToChars q.num
  else intToChars q.num ++ '/' :: Nat.toDigits 10 q.den

mutual
/-- `ValueType::to_string`.  A list renders as `[` + each element's
string + `, ` with the final separator dropped + `]`; on an empty list
the source's `&list_string[0..len - 2]` panics (usize underflow) — the
model returns `[]`, and no theorem evaluates an empty list's string. -/
def valToChars : Val → List Char
  | .text s => s
  | .int n => intToChars n
  | .float q => ratToChars q
  | .bool b => if b then "true".data else "false".data
  | .list l =>
    match l with
    | [] => "[]".data
    | l => '[' :: ((listToChars l).dropLast.dropLast ++ [']'])
  | .ident s => s
  | .cmd c => ctName c.ct
  | .none => []

def listToChars : List Val → List Char
  | [] => []
  | v :: vs => valToChars v ++ ", ".data ++ listToChars vs
end

/-- `ValueType::extract_float`. -/
def extractFloat : Val → Option Rat
  | .int n => some (n : Rat)
  | .float q => some q
  | _ => none

/-- `ValueType::extract_int`. -/
def extractInt : Val → Option Int
  | .int n => some n
  | _ => none

/-- Release-mode wrapping of `i64` arithmetic. -/
def wrap64 (z : Int) : Int := (z + 2 ^ 63) % 2 ^ 64 - 2 ^ 63

/-- Truncation toward zero (`f64 as`-style), used by `ratFmod`. -/
def ratTrunc (q : Rat) : Int := q.num.tdiv q.den

/-- Rust `%` on `f64` (`fmod`): remainder with the dividend's sign.
(`ratFmod a 0` is `a` in the model whereas `fmod` gives NaN; no theorem
takes a zero float divisor.) -/
def ratFmod (a b : Rat) : Rat := a - b * (ratTrunc (a / b) : Int)

/-- `u16::MAX`, the `LOOP_LIMIT`. -/
def LOOP_LIMIT : Nat := 65535

/-- `OUTPUT_BYTE_LIMIT = MESSAGE_BYTE_LIMIT = DISCORD_CHARACTER_LIMIT * 4`. -/
def OUTPUT_BYTE_LIMIT : Nat := 2000 * 4

/-- `CommandType::gen_err`. -/
def genErr (ct : CommandType) (desc : List Char) : List Char :=
  "Semantic\nCommand: ".data ++ ctName ct ++ "\nDescription: ".data ++ desc

def ERROR_NO_ARGS : List Char := "takes no arguments".data
def ERROR_TWO_OR_MORE_ARGS : List Char := "must have two or more arguments".data
def ERROR_EXACTLY_ONE_ARG : List Char := "must have exactly one argument".data
def ERROR_EXACTLY_TWO_ARGS : List Char := "must have exactly two arguments".data
def ERROR_EXACTLY_THREE_ARGS : List Char := "must have exactly three arguments".data
def ERROR_ARGS_MUST_BE_NUMBER : List Char := "all arguments must be of type Number".data
def ERROR_ARGS_MUST_BE_BOOL : List Char := "all arguments must be of type Bool".data
def ERROR_ARGS_MUST_BE_TEXT : List Char := "all arguments must be of type Text".data
def ERROR_ARG_MUST_BE_TEXT : List Char := "argument must be of type Text".data
def ERROR_ARG_MUST_BE_IDENTIFIER : List Char := "argument must be of type Identifier".data
def ERROR_ARG_ONE_MUST_BE_WHOLE_NUMBER : List Char := "first argument must be a whole number".data
def ERROR_ARG_ONE_MUST_BE_BOOL : List Char := "first argument must be of type Bool".data
def ERROR_ARG_ONE_MUST_BE_COMMAND_BOOL : List Char :=
  "first argument must be a command that evaluates to a boolean value".data
def ERROR_ARGS_AFTER_ARG_ONE_MUST_BE_COMMAND : List Char :=
  "arguments following first argument must be of type Command".data
def ERROR_ARG_ONE_MUST_NOT_BE_IDENTIFIER : List Char :=
  "first argument must not be of type Identifier".data
def ERROR_ARG_ONE_MUST_NOT_BE_NONE : List Char := "first argument must not be of type None".data
def ERROR_ARG_TWO_MUST_BE_IDENTIFIER : List Char :=
  "second argument must be of type Identifier".data
def ERROR_UNKNOWN_IDENTIFIER : List Char := "no identifier exists named".data
def ERROR_ZERO_DIVISION : List Char := "division by zero".data

/-- Lock instrumentation for the shared substitution database: the
evaluator records when the `tokio::sync::Mutex` guard is taken and
dropped, and one `lookup` event per call of the lookup closure (each
call is one `get_random_subs` query against the locked database). -/
inductive LockEvent where
  | acquire
  | lookup (name : List Char)
  | release
  deriving DecidableEq, Repr

/-- The interpreter state (`Interpreter`): variable store, output
accumulator, evaluation log, optional database handle (modelled as a
lookup oracle), the `TextInterpolator`'s template set, the RNG oracle
stream, and the lock-event trace. -/
structure VmState where
  vars : VarMap
  output : List Char
  log : List Val
  db : Option (List Char → Option (List Char))
  interpSet : List (List Char)
  rand : List Nat
  events : List LockEvent

/-- Result of evaluating one command: the Rust `Result<ValueType,
String>` together with the mutated interpreter state (errors propagate
with the state as already mutated), plus fuel exhaustion (the model of
the source's unbounded recursion). -/
inductive Res where
  | ok (v : Val) (s : VmState)
  | err (msg : List Char) (s : VmState)
  | fuelOut

/-- Float-branch operation of the arithmetic commands. -/
def floatOp : CommandType → Rat → Rat → Rat
  | .Subtract, a, b => a - b
  | .Multiply, a, b => a * b
  | .Divide, a, b => a / b
  | .Mod, a, b => ratFmod a b
  | _, a, b => a + b

/-- The float-branch left fold (`sum op= value` over the tail). -/
def foldFloat (ct : CommandType) : Rat → List Val → Option Rat
  | acc, [] => some acc
  | acc, v :: vs =>
    match extractFloat v with
    | some x => foldFloat ct (floatOp ct acc x) vs
    | none => none

inductive IntFold where
  | ok (n : Int)
  | notNum
  | zeroDiv

/-- The integer-branch left fold; `Divide`/`Mod` check each divisor for
zero before dividing.  (`i64::MIN / -1` panics in Rust; the model
returns the unwrapped quotient — no theorem reaches that input.) -/
def foldInt (ct : CommandType) : Int → List Val → IntFold
  | acc, [] => .ok acc
  | acc, v :: vs =>
    match extractInt v with
    | some x =>
      match ct with
      | .Divide => if x = 0 then .zeroDiv else foldInt ct (acc.tdiv x) vs
      | .Mod => if x = 0 then .zeroDiv else foldInt ct (acc.tmod x) vs
      | .Subtract => foldInt ct (wrap64 (acc - x)) vs
      | .Multiply => foldInt ct (wrap64 (acc * x)) vs
      | _ => foldInt ct (wrap64 (acc + x)) vs
    | none => .notNum

/-- The shared shape of `Add`/`Subtract`/`Multiply`/`Divide`/`Mod`:
arity check, then the float branch iff a (syntactic) float argument was
seen, else the integer branch. -/
def evalArith (ct : CommandType) (args : List Val) (hf : Bool) : Except (List Char) Val :=
  match args with
  | [] => .error (genErr ct ERROR_TWO_OR_MORE_ARGS)
  | [_] => .error (genErr ct ERROR_TWO_OR_MORE_ARGS)
  | a0 :: rest =>
    if hf then
      match extractFloat a0 with
      | some x =>
        match foldFloat ct x rest with
        | some r => .ok (.float r)
        | none => .error (genErr ct ERROR_ARGS_MUST_BE_NUMBER)
      | none => .error (genErr ct ERROR_ARGS_MUST_BE_NUMBER)
    else
      match extractInt a0 with
      | some x =>
        match foldInt ct x rest with
        | .ok r => .ok (.int r)
        | .notNum => .error (genErr ct ERROR_ARGS_MUST_BE_NUMBER)
        | .zeroDiv => .error (genErr ct ERROR_ZERO_DIVISION)
      | none => .error (genErr ct ERROR_ARGS_MUST_BE_NUMBER)

/-- The accumulating loop of `And`/`Or`. -/
def foldBool (ct : CommandType) (op : Bool → Bool → Bool) :
    Bool → List Val → Except (List Char) Bool
  | acc, [] => .ok acc
  | acc, .bool b :: vs => foldBool ct op (op acc b) vs
  | _, _ :: _ => .error (genErr ct ERROR_ARGS_MUST_BE_BOOL)

/-- The `Print` loop: append each stringified argument unless it would
push the output past `OUTPUT_BYTE_LIMIT` (the source compares
`String::capacity` values; the model uses byte lengths).  The second
component is the output as accumulated so far — on error the
already-appended arguments stay appended, as in the source. -/
def printLoop : List Val → List Char → Except (List Char) Unit × List Char
  | [], out => (.ok (), out)
  | v :: vs, out =>
    let str := valToChars v
    if utf8Len out + utf8Len str ≤ OUTPUT_BYTE_LIMIT then printLoop vs (out ++ str)
    else (.error "Output byte limit of 8000 bytes exceeded".data, out)

/-- The element filter of multi-argument `Copy`: `Identifier` and
`None` arguments cannot be stored. -/
def collectCopyList : List Val → Except (List Char) (List Val)
  | [] => .ok []
  | .ident _ :: _ => .error (genErr .Copy "cannot store arg of type Identifier".data)
  | .none :: _ => .error (genErr .Copy "cannot store arg of type None".data)
  | v :: vs => (collectCopyList vs).map (v :: ·)

/-- Rust `as usize` on an `i64` (wrapping). -/
def asUsize (i : Int) : Nat := (i % 2 ^ 64).toNat

/-- The lazy-argument rule of `eval_command`'s argument loop: these
positions keep a nested `Command` unevaluated (`IfThen` branch,
`IfThenElse` branches, `Repeat` body, every `While` argument); every
other nested command is evaluated eagerly. -/
def lazyKeep (ct : CommandType) (i : Nat) : Bool :=
  match ct with
  | .IfThen => i == 1
  | .IfThenElse => i == 1 || i == 2
  | .Repeat => i != 0
  | .While => true
  | _ => false

inductive ArgsRes where
  | ok (args : List Val) (hasFloat : Bool) (s : VmState)
  | err (msg : List Char) (s : VmState)
  | fuelOut

/-- The argument loop of `eval_command`: left-to-right eager evaluation
except at `lazyKeep` positions; `has_float_arg` is set only by literal
`Float` arguments, never by the result of evaluating a nested command. -/
def evalArgsWith (ev : Cmd → VmState → Res) (ct : CommandType) :
    List Val → Nat → Bool → VmState → ArgsRes
  | [], _, hf, s => .ok [] hf s
  | a :: rest, i, hf, s =>
    match a with
    | .cmd sub =>
      if lazyKeep ct i then
        match evalArgsWith ev ct rest (i + 1) hf s with
        | .ok vs hf' s' => .ok (a :: vs) hf' s'
        | .err e s' => .err e s'
        | .fuelOut => .fuelOut
      else
        match ev sub s with
        | .ok v s' =>
          match evalArgsWith ev ct rest (i + 1) hf s' with
          | .ok vs hf' s'' => .ok (v :: vs) hf' s''
          | .err e s'' => .err e s''
          | .fuelOut => .fuelOut
        | .err e s' => .err e s'
        | .fuelOut => .fuelOut
    | .float _ =>
      match evalArgsWith ev ct rest (i + 1) true s with
      | .ok vs hf' s' => .ok (a :: vs) hf' s'
      | .err e s' => .err e s'
      | .fuelOut => .fuelOut
    | _ =>
      match evalArgsWith ev ct rest (i + 1) hf s with
      | .ok vs hf' s' => .ok (a :: vs) hf' s'
      | .err e s' => .err e s'
      | .fuelOut => .fuelOut

inductive SeqRes where
  | ok (s : VmState)
  | err (msg : List Char) (s : VmState)
  | fuelOut

/-- One pass over the body arguments of `Repeat`/`While`: each must be a
`Command` and is re-evaluated. -/
def evalBodyWith (ev : Cmd → VmState → Res) (ct : CommandType) :
    List Val → VmState → SeqRes
  | [], s => .ok s
  | .cmd c :: rest, s =>
    match ev c s with
    | .ok _ s' => evalBodyWith ev ct rest s'
    | .err e s' => .err e s'
    | .fuelOut => .fuelOut
  | _ :: _, s => .err (genErr ct ERROR_ARGS_AFTER_ARG_ONE_MUST_BE_COMMAND) s

/-- The `for _i in 0..count` loop of `Repeat`. -/
def evalRepeatWith (ev : Cmd → VmState → Res) (body : List Val) :
    Nat → VmState → SeqRes
  | 0, s => .ok s
  | k + 1, s =>
    match evalBodyWith ev .Repeat body s with
    | .ok s' => evalRepeatWith ev body k s'
    | .err e s' => .err e s'
    | .fuelOut => .fuelOut

/-- The `While` loop: re-evaluate the condition, run the body on `true`,
stop with `None` on `false`; `rem` counts down from `LOOP_LIMIT` and
hitting it after a body pass is the `Loop limit exceeded` error (the
source increments `loop_count` and errors once it reaches
`LOOP_LIMIT`). -/
def evalWhileWith (ev : Cmd → VmState → Res) (cond : Cmd) (body : List Val) :
    Nat → VmState → Res
  | 0, s => .err (genErr .While "Loop limit exceeded".data) s
  | rem + 1, s =>
    match ev cond s with
    | .ok (.bool true) s' =>
      match evalBodyWith ev .While body s' with
      | .ok s2 =>
        if rem = 0 then .err (genErr .While "Loop limit exceeded".data) s2
        else evalWhileWith ev cond body rem s2
      | .err e s2 => .err e s2
      | .fuelOut => .fuelOut
    | .ok (.bool false) s' => .ok .none s'
    | .ok _ s' => .err (genErr .While ERROR_ARG_ONE_MUST_BE_COMMAND_BOOL) s'
    | .err e s' => .err e s'
    | .fuelOut => .fuelOut

def ofExcept (r : Except (List Char) Val) (s : VmState) : Res :=
  match r with
  | .ok v => .ok v s
  | .error e => .err e s

/-- Element exchange, Rust `Vec::swap` / the `Swap` command's
`chars.swap(a, b)`.  The source's bound check uses `>` so an index equal
to the length slips through and `swap` panics in Rust; the model is a
no-op there (no theorem touches that input). -/
def listSwap {α : Type} (l : List α) (i j : Nat) : List α :=
  match l.get? i, l.get? j with
  | some x, some y => (l.set i y).set j x
  | _, _ => l

/-- The per-command dispatch of `eval_command`, applied to the already
processed argument list (`args`), the literal-float flag (`hf`), and the
state after argument evaluation.  `ev` is the recursive evaluator (one
call frame deeper), `ifuel` the fuel given to the interpolator run of
`GetSub`. -/
def evalDispatch (ev : Cmd → VmState → Res) (ifuel : Nat) (ct : CommandType)
    (args : List Val) (hf : Bool) (s : VmState) : Res :=
  match ct with
  | .Add => ofExcept (evalArith .Add args hf) s
  | .Subtract => ofExcept (evalArith .Subtract args hf) s
  | .Multiply => ofExcept (evalArith .Multiply args hf) s
  | .Divide => ofExcept (evalArith .Divide args hf) s
  | .Mod => ofExcept (evalArith .Mod args hf) s
  | .SelectRandom =>
    match args with
    | [] => .err (genErr .SelectRandom ERROR_TWO_OR_MORE_ARGS) s
    | [_] => .err (genErr .SelectRandom ERROR_TWO_OR_MORE_ARGS) s
    | _ =>
      let draw := s.rand.headD 0
      .ok (args.getD (draw % args.length) .none) { s with rand := s.rand.tail }
  | .RandomRange =>
    match args with
    | [a, b] =>
      match a, b with
      | .int mn, .int mx =>
        if mn ≤ mx then
          let draw := s.rand.headD 0
          .ok (.int (mn + (draw % (mx - mn + 1).toNat)))
            { s with rand := s.rand.tail }
        else .err "panicked: cannot sample empty range".data s
      | .int mn, .float mx =>
        -- the sampled float is abstracted to the lower bound
        if (mn : Rat) ≤ mx then .ok (.float (mn : Rat)) { s with rand := s.rand.tail }
        else .err "panicked: cannot sample empty range".data s
      | .float mn, .int mx =>
        if mn ≤ (mx : Rat) then .ok (.float mn) { s with rand := s.rand.tail }
        else .err "panicked: cannot sample empty range".data s
      | .float mn, .float mx =>
        if mn ≤ mx then .ok (.float mn) { s with rand := s.rand.tail }
        else .err "panicked: cannot sample empty range".data s
      | _, _ => .err (genErr .RandomRange ERROR_ARGS_MUST_BE_NUMBER) s
    | _ => .err (genErr .RandomRange ERROR_EXACTLY_TWO_ARGS) s
  | .Capitalize =>
    match args with
    | [a] =>
      match a with
      | .text t =>
        match t with
        | [] => .ok (.text []) s
        | c :: cs => .ok (.text (c.toUpper :: cs)) s
      | _ => .err (genErr .Capitalize ERROR_ARG_MUST_BE_TEXT) s
    | _ => .err (genErr .Capitalize ERROR_EXACTLY_ONE_ARG) s
  | .Upper =>
    match args with
    | [a] =>
      match a with
      | .text t => .ok (.text (t.map Char.toUpper)) s
      | _ => .err (genErr .Upper ERROR_ARG_MUST_BE_TEXT) s
    | _ => .err (genErr .Upper ERROR_EXACTLY_ONE_ARG) s
  | .Lower =>
    match args with
    | [a] =>
      match a with
      | .text t => .ok (.text (t.map Char.toLower)) s
      | _ => .err (genErr .Lower ERROR_ARG_MUST_BE_TEXT) s
    | _ => .err (genErr .Lower ERROR_EXACTLY_ONE_ARG) s
  | .RemoveWhitespace =>
    match args with
    | [a] =>
      match a with
      | .text t => .ok (.text (splitWs t).flatten) s
      | _ => .err (genErr .RemoveWhitespace ERROR_ARG_MUST_BE_TEXT) s
    | _ => .err (genErr .RemoveWhitespace ERROR_EXACTLY_ONE_ARG) s
  | .Repeat =>
    match args with
    | [] => .err (genErr .Repeat ERROR_TWO_OR_MORE_ARGS) s
    | [_] => .err (genErr .Repeat ERROR_TWO_OR_MORE_ARGS) s
    | a0 :: body =>
      match a0 with
      | .int n =>
        if n > (LOOP_LIMIT : Int) then
          .err (genErr .Repeat "must not exceed more than 65535 repetitions".data) s
        else
          -- `for _i in 0..n` runs `n.toNat` times (zero for negative `n`)
          match evalRepeatWith ev body n.toNat s with
          | .ok s' => .ok .none s'
          | .err e s' => .err e s'
          | .fuelOut => .fuelOut
      | _ => .err (genErr .Repeat ERROR_ARG_ONE_MUST_BE_WHOLE_NUMBER) s
  | .While =>
    match args with
    | [] => .err (genErr .While ERROR_TWO_OR_MORE_ARGS) s
    | [_] => .err (genErr .While ERROR_TWO_OR_MORE_ARGS) s
    | a0 :: body =>
      match a0 with
      | .cmd c => evalWhileWith ev c body LOOP_LIMIT s
      | _ => .err (genErr .While ERROR_ARG_ONE_MUST_BE_COMMAND_BOOL) s
  | .Copy =>
    match args with
    | [] => .err (genErr .Copy ERROR_TWO_OR_MORE_ARGS) s
    | [_] => .err (genErr .Copy ERROR_TWO_OR_MORE_ARGS) s
    | [a, b] =>
      match b with
      | .ident id =>
        match a with
        | .ident _ => .err (genErr .Copy ERROR_ARG_ONE_MUST_NOT_BE_IDENTIFIER) s
        | .none => .err (genErr .Copy ERROR_ARG_ONE_MUST_NOT_BE_NONE) s
        | _ =>
          match s.vars.insertVar id a with
          | .ok m => .ok .none { s with vars := m }
          | .error e => .err e s
      | _ => .err (genErr .Copy ERROR_ARG_TWO_MUST_BE_IDENTIFIER) s
    | _ =>
      match args.getLast? with
      | some (.ident id) =>
        match collectCopyList args.dropLast with
        | .ok lst =>
          match s.vars.insertVar id (.list lst) with
          | .ok m => .ok .none { s with vars := m }
          | .error e => .err e s
        | .error e => .err e s
      | _ => .err (genErr .Copy "last arg must be of type Identifier".data) s
  | .Paste =>
    match args with
    | [a] =>
      match a with
      | .ident id =>
        match s.vars.getVar id with
        | some v => .ok v s
        | none =>
          .err (genErr .Paste (ERROR_UNKNOWN_IDENTIFIER ++ " **".data ++ id ++ "**".data)) s
      | _ => .err (genErr .Paste ERROR_ARG_MUST_BE_IDENTIFIER) s
    | _ => .err (genErr .Paste ERROR_EXACTLY_ONE_ARG) s
  | .Print =>
    match printLoop args s.output with
    | (.ok _, out) => .ok .none { s with output := out }
    | (.error e, out) => .err e { s with output := out }
  | .Concatenate => .ok (.text (args.map valToChars).flatten) s
  | .IfThen =>
    match args with
    | [a, b] =>
      match a with
      | .bool bv =>
        if bv then
          match b with
          | .cmd c => ev c s
          | _ => .ok b s
        else .ok .none s
      | _ => .err (genErr .IfThen ERROR_ARG_ONE_MUST_BE_BOOL) s
    | _ => .err (genErr .IfThen ERROR_EXACTLY_TWO_ARGS) s
  | .IfThenElse =>
    match args with
    | [a, b, c] =>
      match a with
      | .bool bv =>
        if bv then
          match b with
          | .cmd cb => ev cb s
          | _ => .ok b s
        else
          match c with
          | .cmd cc => ev cc s
          | _ => .ok c s
      | _ => .err (genErr .IfThenElse ERROR_ARG_ONE_MUST_BE_BOOL) s
    | _ => .err (genErr .IfThenElse ERROR_EXACTLY_THREE_ARGS) s
  | .Not =>
    match args with
    | [a] =>
      match a with
      | .bool b => .ok (.bool (!b)) s
      | _ => .err (genErr .Not ERROR_ARG_ONE_MUST_BE_BOOL) s
    | _ => .err (genErr .Not ERROR_EXACTLY_ONE_ARG) s
  | .And =>
    match args with
    | [] => .err (genErr .And ERROR_TWO_OR_MORE_ARGS) s
    | [_] => .err (genErr .And ERROR_TWO_OR_MORE_ARGS) s
    | _ => ofExcept ((foldBool .And (· && ·) true args).map .bool) s
  | .Or =>
    match args with
    | [] => .err (genErr .Or ERROR_TWO_OR_MORE_ARGS) s
    | [_] => .err (genErr .Or ERROR_TWO_OR_MORE_ARGS) s
    | _ => ofExcept ((foldBool .Or (· || ·) false args).map .bool) s
  | .Eq =>
    match args with
    | [a, b] =>
      match a, b with
      | .text x, .text y => .ok (.bool (decide (x = y))) s
      | .int x, .int y => .ok (.bool (decide (x = y))) s
      | .int x, .float y => .ok (.bool (decide ((x : Rat) = y))) s
      | .float x, .int y => .ok (.bool (decide (x = (y : Rat)))) s
      | .float x, .float y =>
        .ok (.bool (decide (x < y + (1 : Rat) / 10000) && decide (y - (1 : Rat) / 10000 < x))) s
      | .bool x, .bool y => .ok (.bool (x == y)) s
      | _, _ =>
        .err (genErr .Eq ("Cannot compare ".data ++ valToChars a ++ " with ".data ++
          valToChars b)) s
    | _ => .err (genErr .Eq ERROR_EXACTLY_TWO_ARGS) s
  | .Gt =>
    match args with
    | [a, b] =>
      match a, b with
      | .int x, .int y => .ok (.bool (decide (x > y))) s
      | .int x, .float y => .ok (.bool (decide ((x : Rat) > y))) s
      | .float x, .int y => .ok (.bool (decide (x > (y : Rat)))) s
      | .float x, .float y => .ok (.bool (decide (x > y))) s
      | _, _ => .err (genErr .Gt ERROR_ARGS_MUST_BE_NUMBER) s
    | _ => .err (genErr .Gt ERROR_EXACTLY_TWO_ARGS) s
  | .Lt =>
    match args with
    | [a, b] =>
      match a, b with
      | .int x, .int y => .ok (.bool (decide (x < y))) s
      | .int x, .float y => .ok (.bool (decide ((x : Rat) < y))) s
      | .float x, .int y => .ok (.bool (decide (x < (y : Rat)))) s
      | .float x, .float y => .ok (.bool (decide (x < y))) s
      | _, _ => .err (genErr .Lt ERROR_ARGS_MUST_BE_NUMBER) s
    | _ => .err (genErr .Lt ERROR_EXACTLY_TWO_ARGS) s
  | .StartsWith =>
    match args with
    | [a, b] =>
      match a, b with
      | .text x, .text y => .ok (.bool (y.isPrefixOf x)) s
      | _, _ => .err (genErr .StartsWith ERROR_ARGS_MUST_BE_TEXT) s
    | _ => .err (genErr .StartsWith ERROR_EXACTLY_TWO_ARGS) s
  | .EndsWith =>
    match args with
    | [a, b] =>
      match a, b with
      | .text x, .text y => .ok (.bool (y.isSuffixOf x)) s
      | _, _ => .err (genErr .EndsWith ERROR_ARGS_MUST_BE_TEXT) s
    | _ => .err (genErr .EndsWith ERROR_EXACTLY_TWO_ARGS) s
  | .GetSub =>
    match args with
    | [a] =>
      match a with
      | .text sub =>
        match s.db with
        | some dbm =>
          -- the Mutex guard is taken, held across the whole
          -- interpolation run (every lookup), then dropped
          let ri := interp ifuel dbm s.interpSet (templCarrot :: sub)
          let s' := { s with
            interpSet := ri.tset,
            events := s.events ++ .acquire :: (ri.looks.map LockEvent.lookup) ++ [.release] }
          match ri.res with
          | .ok o => .ok (.text o) s'
          | .error .loop => .err "detected infinitely looping nested templates".data s'
          | .error .fuelOut => .fuelOut
        | none => .err "interpreter attempt to use database with no reference.".data s
      | _ => .err (genErr .GetSub ERROR_ARG_MUST_BE_TEXT) s
    | _ => .err (genErr .GetSub ERROR_EXACTLY_ONE_ARG) s
  | .NewLine =>
    match args with
    | [] => .ok (.text ['\n']) s
    | _ => .err (genErr .NewLine ERROR_NO_ARGS) s
  | .Index =>
    match args with
    | [a, b] =>
      match a with
      | .int i =>
        match b with
        | .text t =>
          match t.get? (asUsize i) with
          | some c => .ok (.text [c]) s
          | none => .err (genErr .Index "index out of bounds".data) s
        | .list l =>
          match l.get? (asUsize i) with
          | some v => .ok v s
          | none => .err (genErr .Index "index out of bounds".data) s
        | _ => .err (genErr .Index "second argument must be of type Text or List".data) s
      | _ => .err (genErr .Index "first argument must be of type Integer".data) s
    | _ => .err (genErr .Index ERROR_EXACTLY_TWO_ARGS) s
  | .Slice =>
    match args with
    | [a, b, c] =>
      match a, b with
      | .int ia, .int ib =>
        let na := asUsize ia
        let nb := asUsize ib
        match c with
        | .text t =>
          if na ≥ nb then
            .err (genErr .Slice "first argument must be less than second argument".data) s
          else if na > t.length ∨ nb > t.length then
            .err (genErr .Slice "index out of bounds".data) s
          else .ok (.text ((t.drop na).take (nb - na))) s
        | .list l =>
          if na ≥ nb then
            .err (genErr .Slice "first argument must be less than second argument".data) s
          else if na > l.length ∨ nb > l.length then
            .err (genErr .Slice "index out of bounds".data) s
          else .ok (.list ((l.drop na).take (nb - na))) s
        | _ => .err (genErr .Slice "third argument must be of type Text or List".data) s
      | _, _ => .err (genErr .Slice "first two arguments must be of type Integer".data) s
    | _ => .err (genErr .Slice ERROR_EXACTLY_THREE_ARGS) s
  | .Length =>
    match args with
    | [a] =>
      match a with
      | .text t => .ok (.int (utf8Len t : Int)) s
      | .list l => .ok (.int (l.length : Int)) s
      | _ => .err (genErr .Length "first argument must be of type Text or List".data) s
    | _ => .err (genErr .Length ERROR_EXACTLY_ONE_ARG) s
  | .Swap =>
    match args with
    | [a, b, c] =>
      match a, b with
      | .int ia, .int ib =>
        let na := asUsize ia
        let nb := asUsize ib
        match c with
        | .text t =>
          if na > t.length ∨ nb > t.length then
            .err (genErr .Swap "index out of bounds".data) s
          else .ok (.text (listSwap t na nb)) s
        | .list l =>
          if na > l.length ∨ nb > l.length then
            .err (genErr .Swap "index out of bounds".data) s
          else .ok (.list (listSwap l na nb)) s
        | _ => .err (genErr .Swap "third argument must be of type Text or List".data) s
      | _, _ => .err (genErr .Swap "first two arguments must be of type Integer".data) s
    | _ => .err (genErr .Swap ERROR_EXACTLY_THREE_ARGS) s
  | .Insert =>
    match args with
    | [v, b, c] =>
      match b with
      | .int i =>
        let n := asUsize i
        match c with
        | .text t =>
          match v with
          | .text vt =>
            if n > t.length then .err (genErr .Insert "index out of bounds".data) s
            else .ok (.text (t.take n ++ vt ++ t.drop n)) s
          | _ =>
            .err (genErr .Insert
              "first argument must be of type Text when inserting into type Text".data) s
        | .list l =>
          match v with
          | .ident _ =>
            .err (genErr .Insert "cannot insert values of type Identifier into type List".data) s
          | .none =>
            .err (genErr .Insert "cannot insert values of type None into type List".data) s
          | _ =>
            if n > l.length then .err (genErr .Insert "index out of bounds".data) s
            else .ok (.list (l.take n ++ v :: l.drop n)) s
        | _ => .err (genErr .Insert "third argument must be of type Text or List".data) s
      | _ => .err (genErr .Insert "second argument must be of type Integer".data) s
    | _ => .err (genErr .Insert ERROR_EXACTLY_THREE_ARGS) s
  | .Remove =>
    match args with
    | [a, b] =>
      match a with
      | .int i =>
        let n := asUsize i
        match b with
        | .text t =>
          if n ≥ t.length then .err (genErr .Remove "index out of bounds".data) s
          else .ok (.text (t.take n ++ t.drop (n + 1))) s
        | .list l =>
          if n ≥ l.length then .err (genErr .Remove "index out of bounds".data) s
          else .ok (.list (l.take n ++ l.drop (n + 1))) s
        | _ => .err (genErr .Remove "second argument must be of type Text or type List".data) s
      | _ => .err (genErr .Remove "first argument must be of type Integer".data) s
    | _ => .err (genErr .Remove ERROR_EXACTLY_TWO_ARGS) s
  | .Replace =>
    match args with
    | [v, b, c] =>
      match b with
      | .int i =>
        let n := asUsize i
        match c with
        | .text t =>
          match v with
          | .text vt =>
            if n ≥ t.length then .err (genErr .Replace "index out of bounds".data) s
            else .ok (.text (t.take n ++ vt ++ t.drop (n + 1))) s
          | _ =>
            .err (genErr .Replace
              "first argument must be of type Text when inserting into type Text".data) s
        | .list l =>
          match v with
          | .ident _ =>
            .err (genErr .Replace "cannot insert values of type Identifier into type List".data) s
          | .none =>
            .err (genErr .Replace "cannot insert values of type None into type List".data) s
          | _ =>
            if n ≥ l.length then .err (genErr .Replace "index out of bounds".data) s
            else .ok (.list (l.set n v)) s
        | _ => .err (genErr .Replace "third argument must be of type Text or List".data) s
      | _ => .err (genErr .Replace "second argument must be of type Integer".data) s
    | _ => .err (genErr .Replace ERROR_EXACTLY_THREE_ARGS) s

/-- `Interpreter::eval_command`: run the argument loop, then dispatch.
The fuel bounds the recursion depth, which the source leaves unbounded
(`async_recursion`); every recursive call runs at `f`. -/
def evalCmd : Nat → Cmd → VmState → Res
  | 0, _, _ => .fuelOut
  | f + 1, c, s =>
    match evalArgsWith (evalCmd f) c.ct c.args 0 false s with
    | .ok args hf s' => evalDispatch (evalCmd f) (f + 1) c.ct args hf s'
    | .err e s' => .err e s'
    | .fuelOut => .fuelOut

theorem evalCmd_succ (f : Nat) (c : Cmd) (s : VmState) :
    evalCmd (f + 1) c s =
      match evalArgsWith (evalCmd f) c.ct c.args 0 false s with
      | .ok args hf s' => evalDispatch (evalCmd f) (f + 1) c.ct args hf s'
      | .err e s' => .err e s'
      | .fuelOut => .fuelOut := rfl

/-- A fresh interpreter (`Interpreter::new` /
`Interpreter::new_with_db`): empty store, empty output. -/
def VmState.new (db : Option (List Char → Option (List Char))) (rand : List Nat) : VmState :=
  ⟨VarMap.new, [], [], db, [], rand, []⟩

inductive StrRes where
  | ok (out : List Char) (s : VmState)
  | err (msg : List Char) (s : VmState)
  | fuelOut

/-- The statement loop of `Interpreter::interpret`. -/
def runCmds (fuel : Nat) : List Cmd → VmState → SeqRes
  | [], s => .ok s
  | c :: cs, s =>
    match evalCmd fuel c s with
    | .ok _ s' => runCmds fuel cs s'
    | .err e s' => .err e s'
    | .fuelOut => .fuelOut

/-- `Interpreter::interpret`: parse, evaluate each top-level command,
then drain the output accumulator (returning it and leaving it
empty). -/
def interpret (fuel : Nat) (code : List Char) (s : VmState) : StrRes :=
  match parse (tokenize code) with
  | .error e => .err e s
  | .ok cmds =>
    match runCmds fuel cmds s with
    | .ok s' => .ok s'.output { s' with output := [] }
    | .err e s' => .err e s'
    | .fuelOut => .fuelOut

/-- The character scan of `Interpreter::interpret_embedded_code`:
`output` collects depth-0 characters, `stack` holds the in-progress
code buffers (head = innermost), `depth` the brace-nesting counter.  On
`}` the decremented depth is checked for negativity first; then the
popped buffer is dispatched to `interpret` and its result spliced into
the enclosing buffer (or the output when the stack emptied).  At end of
input a nonzero depth is the unmatched-braces error. -/
def embedScan (fuel : Nat) :
    List Char → List Char → List (List Char) → Int → VmState → StrRes
  | [], output, _, depth, s =>
    if depth ≠ 0 then .err "Unmatched curly braces".data s else .ok output s
  | c :: cs, output, stack, depth, s =>
    if c = '{' then embedScan fuel cs output ([] :: stack) (depth + 1) s
    else if c = '}' then
      if depth - 1 < 0 then .err "Unmatched curly braces".data s
      else
        match stack with
        | code :: stack' =>
          match interpret fuel code s with
          | .ok ev s' =>
            match stack' with
            | top :: rest => embedScan fuel cs output ((top ++ ev) :: rest) (depth - 1) s'
            | [] => embedScan fuel cs (output ++ ev) [] (depth - 1) s'
          | .err e s' => .err e s'
          | .fuelOut => .fuelOut
        | [] => embedScan fuel cs output [] (depth - 1) s
    else if depth = 0 then embedScan fuel cs (output ++ [c]) stack depth s
    else
      match stack with
      | top :: rest => embedScan fuel cs output ((top ++ [c]) :: rest) depth s
      | [] => embedScan fuel cs output stack depth s

/-- `Interpreter::interpret_embedded_code`. -/
def interpretEmbeddedCode (fuel : Nat) (input : List Char) (s : VmState) : StrRes :=
  embedScan fuel input [] [] 0 s

/-- A fresh interpreter with no database handle (`Interpreter::new`). -/
def initState : VmState := VmState.new Option.none []

/-! ## C1: numeric promotion -/

/-- The five arithmetic command kinds. -/
def arithOps : List CommandType := [.Add, .Subtract, .Multiply, .Divide, .Mod]

/-- Two-argument integer arithmetic of the evaluator (wrapping add /
subtract / multiply, truncating divide / remainder). -/
def intArith (ct : CommandType) (a b : Int) : Int :=
  match ct with
  | .Subtract => wrap64 (a - b)
  | .Multiply => wrap64 (a * b)
  | .Divide => a.tdiv b
  | .Mod => a.tmod b
  | _ => wrap64 (a + b)

/-- **C1 counterexample**: in `add(1, select_random(0.5, 0.5))` every
argument evaluates to a number and the nested command evaluates to the
float `0.5`, yet the outer command does not promote to float — it fails
with the `all arguments must be of type Number` semantic error instead
of returning a float, because the float flag is read off the syntactic
argument list before evaluation. -/
theorem C1_counterexample :
    evalCmd 2 (.mk .SelectRandom [.float (1 / 2), .float (1 / 2)]) initState =
      .ok (.float (1 / 2)) initState ∧
    evalCmd 3 (.mk .Add
        [.int 1, .cmd (.mk .SelectRandom [.float (1 / 2), .float (1 / 2)])]) initState =
      .err (genErr .Add ERROR_ARGS_MUST_BE_NUMBER) initState := by
  constructor <;> rfl

theorem evalArgsWith_pair_lits (ev : Cmd → VmState → Res) (ct : CommandType)
    (s : VmState) (a b : Val) (hf₀ : Bool)
    (ha : ∀ c, a ≠ .cmd c) (hb : ∀ c, b ≠ .cmd c) :
    ∃ hf', evalArgsWith ev ct [a, b] 0 hf₀ s = .ok [a, b] hf' s := by
  cases a <;> cases b <;> simp [evalArgsWith] <;>
    first
      | exact absurd rfl (ha _)
      | exact absurd rfl (hb _)

/-- **C1 (amended)**: the float/int decision of the arithmetic commands
is made from the syntactic argument list before evaluation.  With two
literal numeric arguments the result is a `Float` iff at least one of
them is a float literal (both operands coerced to float), and an exact
(wrapping) `Int` otherwise; but an argument produced by evaluating a
nested command never triggers promotion — when no syntactic float
literal is present, integer arithmetic is attempted and a nested
command that evaluates to a float makes the command fail with the
`all arguments must be of type Number` semantic error. -/
theorem C1_numeric_promotion (ct : CommandType) (hct : ct ∈ arithOps)
    (f : Nat) (s : VmState) :
    (∀ a b : Int, (ct = .Divide ∨ ct = .Mod → b ≠ 0) →
      evalCmd (f + 1) (.mk ct [.int a, .int b]) s = .ok (.int (intArith ct a b)) s) ∧
    (∀ (a : Int) (q : Rat),
      evalCmd (f + 1) (.mk ct [.int a, .float q]) s = .ok (.float (floatOp ct a q)) s) ∧
    (∀ (q : Rat) (b : Int),
      evalCmd (f + 1) (.mk ct [.float q, .int b]) s = .ok (.float (floatOp ct q b)) s) ∧
    (∀ p q : Rat,
      evalCmd (f + 1) (.mk ct [.float p, .float q]) s = .ok (.float (floatOp ct p q)) s) ∧
    (∀ (a : Int) (c : Cmd) (q : Rat) (s' : VmState),
      evalCmd f c s = .ok (.float q) s' →
      evalCmd (f + 1) (.mk ct [.int a, .cmd c]) s =
        .err (genErr ct ERROR_ARGS_MUST_BE_NUMBER) s') := by
  have hct' : ct = .Add ∨ ct = .Subtract ∨ ct = .Multiply ∨ ct = .Divide ∨ ct = .Mod := by
    simpa [arithOps] using hct
  have hlazy : ∀ i, lazyKeep ct i = false := by
    rcases hct' with h | h | h | h | h <;> subst h <;> intro i <;> rfl
  refine ⟨?_, ?_, ?_, ?_, ?_⟩
  · intro a b hb
    rcases hct' with h | h | h | h | h <;> subst h
    · simp [evalCmd, Cmd.ct, Cmd.args, evalArgsWith, evalDispatch, evalArith, extractInt,
        foldInt, ofExcept, intArith]
    · simp [evalCmd, Cmd.ct, Cmd.args, evalArgsWith, evalDispatch, evalArith, extractInt,
        foldInt, ofExcept, intArith]
    · simp [evalCmd, Cmd.ct, Cmd.args, evalArgsWith, evalDispatch, evalArith, extractInt,
        foldInt, ofExcept, intArith]
    · have hb' : b ≠ 0 := hb (Or.inl rfl)
      simp [evalCmd, Cmd.ct, Cmd.args, evalArgsWith, evalDispatch, evalArith, extractInt,
        foldInt, ofExcept, intArith, hb']
    · have hb' : b ≠ 0 := hb (Or.inr rfl)
      simp [evalCmd, Cmd.ct, Cmd.args, evalArgsWith, evalDispatch, evalArith, extractInt,
        foldInt, ofExcept, intArith, hb']
  · intro a q
    rcases hct' with h | h | h | h | h <;> subst h <;>
      simp [evalCmd, Cmd.ct, Cmd.args, evalArgsWith, evalDispatch, evalArith, extractFloat,
        foldFloat, ofExcept]
  · intro q b
    rcases hct' with h | h | h | h | h <;> subst h <;>
      simp [evalCmd, Cmd.ct, Cmd.args, evalArgsWith, evalDispatch, evalArith, extractFloat,
        foldFloat, ofExcept]
  · intro p q
    rcases hct' with h | h | h | h | h <;> subst h <;>
      simp [evalCmd, Cmd.ct, Cmd.args, evalArgsWith, evalDispatch, evalArith, extractFloat,
        foldFloat, ofExcept]
  · intro a c q s' hc
    have harg : evalArgsWith (evalCmd f) ct [.int a, .cmd c] 0 false s =
        .ok [.int a, .float q] false s' := by
      simp [evalArgsWith, hlazy, hc]
    rcases hct' with h | h | h | h | h <;> subst h <;>
      simp [evalCmd, Cmd.ct, Cmd.args, harg, evalDispatch, evalArith, extractInt, foldInt,
        extractFloat, ofExcept]

/-- Witness for C1 at `div(7, 2)` (integer path) and a nested-command
float argument (error path). -/
theorem C1_witness :
    evalCmd 2 (.mk .Divide [.int 7, .int 2]) initState =
      .ok (.int (intArith .Divide 7 2)) initState ∧
    evalCmd 3 (.mk .Divide
        [.int 1, .cmd (.mk .SelectRandom [.float (1 / 2), .float (1 / 2)])]) initState =
      .err (genErr .Divide ERROR_ARGS_MUST_BE_NUMBER) initState :=
  ⟨(C1_numeric_promotion .Divide (by decide) 1 initState).1 7 2 (fun _ => by decide),
    (C1_numeric_promotion .Divide (by decide) 2 initState).2.2.2.2 1
      (.mk .SelectRandom [.float (1 / 2), .float (1 / 2)]) (1 / 2) initState rfl⟩

/-! ## C3: the Repeat count rule -/

theorem utf8Len_append (a b : List Char) : utf8Len (a ++ b) = utf8Len a + utf8Len b := by
  simp [utf8Len]

theorem evalArgsWith_repeat_tail (ev : Cmd → VmState → Res) (s : VmState) :
    ∀ (rest : List Val) (i : Nat) (hf : Bool), 1 ≤ i →
      ∃ hf', evalArgsWith ev .Repeat rest i hf s = .ok rest hf' s := by
  intro rest
  induction rest with
  | nil => intro i hf _; exact ⟨hf, rfl⟩
  | cons a rest ih =>
    intro i hf hi
    have hl : lazyKeep .Repeat i = true := by simp [lazyKeep]; omega
    cases a with
    | cmd c =>
      obtain ⟨hf', h⟩ := ih (i + 1) hf (by omega)
      exact ⟨hf', by simp [evalArgsWith, hl, h]⟩
    | float q =>
      obtain ⟨hf', h⟩ := ih (i + 1) true (by omega)
      exact ⟨hf', by simp [evalArgsWith, h]⟩
    | text t =>
      obtain ⟨hf', h⟩ := ih (i + 1) hf (by omega)
      exact ⟨hf', by simp [evalArgsWith, h]⟩
    | int n =>
      obtain ⟨hf', h⟩ := ih (i + 1) hf (by omega)
      exact ⟨hf', by simp [evalArgsWith, h]⟩
    | bool b =>
      obtain ⟨hf', h⟩ := ih (i + 1) hf (by omega)
      exact ⟨hf', by simp [evalArgsWith, h]⟩
    | list l =>
      obtain ⟨hf', h⟩ := ih (i + 1) hf (by omega)
      exact ⟨hf', by simp [evalArgsWith, h]⟩
    | ident x =>
      obtain ⟨hf', h⟩ := ih (i + 1) hf (by omega)
      exact ⟨hf', by simp [evalArgsWith, h]⟩
    | none =>
      obtain ⟨hf', h⟩ := ih (i + 1) hf (by omega)
      exact ⟨hf', by simp [evalArgsWith, h]⟩

theorem evalRepeat_print (f : Nat) (t : List Char) :
    ∀ (k : Nat) (s : VmState),
      utf8Len s.output + k * utf8Len t ≤ OUTPUT_BYTE_LIMIT →
      evalRepeatWith (evalCmd (f + 1)) [.cmd (.mk .Print [.text t])] k s =
        .ok { s with output := s.output ++ (List.replicate k t).flatten } := by
  intro k
  induction k with
  | zero => intro s _; simp [evalRepeatWith]
  | succ k ih =>
    intro s h
    have hmul : (k + 1) * utf8Len t = k * utf8Len t + utf8Len t := by ring
    have hfit : utf8Len s.output + utf8Len t ≤ OUTPUT_BYTE_LIMIT := by omega
    have hbody : evalCmd (f + 1) (.mk .Print [.text t]) s =
        .ok .none { s with output := s.output ++ t } := by
      simp [evalCmd, Cmd.ct, Cmd.args, evalArgsWith, evalDispatch, printLoop, valToChars, hfit]
    have hlen : utf8Len ({ s with output := s.output ++ t } : VmState).output +
        k * utf8Len t ≤ OUTPUT_BYTE_LIMIT := by
      simp only [utf8Len_append]
      omega
    have hrec := ih { s with output := s.output ++ t } hlen
    simp [evalRepeatWith, evalBodyWith, hbody, hrec, List.replicate_succ]

/-- **C3 (amended)**: for `Repeat`, a count above the loop ceiling
(`65535`) fails with the repetition-limit error before executing any
body argument (the state is unchanged); a count that is not an integer
fails with the whole-number error, again without touching the state; but
a *negative* integer count is accepted: the `for` loop over `0..count`
runs zero times and `Repeat` returns `None` with the state unchanged.
Within bounds each body command is re-evaluated exactly `count` times
(shown for a `Print` body: the output grows by exactly `count` copies). -/
theorem C3_repeat_count_rule (f : Nat) (s : VmState) (n : Int) (rest : List Val)
    (hrest : rest ≠ []) :
    (n > (LOOP_LIMIT : Int) →
      evalCmd (f + 1) (.mk .Repeat (.int n :: rest)) s =
        .err (genErr .Repeat "must not exceed more than 65535 repetitions".data) s) ∧
    (n ≤ 0 →
      evalCmd (f + 1) (.mk .Repeat (.int n :: rest)) s = .ok .none s) ∧
    (∀ v : Val, (∀ c, v ≠ .cmd c) → (∀ m, v ≠ .int m) →
      evalCmd (f + 1) (.mk .Repeat (v :: rest)) s =
        .err (genErr .Repeat ERROR_ARG_ONE_MUST_BE_WHOLE_NUMBER) s) ∧
    (∀ t : List Char, 0 ≤ n → n ≤ (LOOP_LIMIT : Int) →
      utf8Len s.output + n.toNat * utf8Len t ≤ OUTPUT_BYTE_LIMIT →
      evalCmd (f + 2) (.mk .Repeat [.int n, .cmd (.mk .Print [.text t])]) s =
        .ok .none { s with output := s.output ++ (List.replicate n.toNat t).flatten }) := by
  have hhead : ∀ v : Val, (∀ c, v ≠ .cmd c) →
      ∃ hf'', evalArgsWith (evalCmd f) .Repeat (v :: rest) 0 false s =
        .ok (v :: rest) hf'' s := by
    intro v hvc
    cases v with
    | cmd c => exact absurd rfl (hvc c)
    | float q =>
      obtain ⟨hf', h⟩ := evalArgsWith_repeat_tail (evalCmd f) s rest 1 true (by omega)
      exact ⟨hf', by simp [evalArgsWith, h]⟩
    | text t =>
      obtain ⟨hf', h⟩ := evalArgsWith_repeat_tail (evalCmd f) s rest 1 false (by omega)
      exact ⟨hf', by simp [evalArgsWith, h]⟩
    | int m =>
      obtain ⟨hf', h⟩ := evalArgsWith_repeat_tail (evalCmd f) s rest 1 false (by omega)
      exact ⟨hf', by simp [evalArgsWith, h]⟩
    | bool b =>
      obtain ⟨hf', h⟩ := evalArgsWith_repeat_tail (evalCmd f) s rest 1 false (by omega)
      exact ⟨hf', by simp [evalArgsWith, h]⟩
    | list l =>
      obtain ⟨hf', h⟩ := evalArgsWith_repeat_tail (evalCmd f) s rest 1 false (by omega)
      exact ⟨hf', by simp [evalArgsWith, h]⟩
    | ident x =>
      obtain ⟨hf', h⟩ := evalArgsWith_repeat_tail (evalCmd f) s rest 1 false (by omega)
      exact ⟨hf', by simp [evalArgsWith, h]⟩
    | none =>
      obtain ⟨hf', h⟩ := evalArgsWith_repeat_tail (evalCmd f) s rest 1 false (by omega)
      exact ⟨hf', by simp [evalArgsWith, h]⟩
  obtain ⟨hf', hargs0⟩ := hhead (.int n) (fun c h => by cases h)
  refine ⟨?_, ?_, ?_, ?_⟩
  · intro hn
    cases rest with
    | nil => exact absurd rfl hrest
    | cons r rs =>
      simp only [evalCmd, Cmd.ct, Cmd.args, hargs0]
      simp [evalDispatch, hn]
  · intro hn
    have h0 : n.toNat = 0 := Int.toNat_of_nonpos hn
    have hnn : ¬n > (LOOP_LIMIT : Int) := by
      have : (0 : Int) ≤ (LOOP_LIMIT : Int) := by positivity
      omega
    cases rest with
    | nil => exact absurd rfl hrest
    | cons r rs =>
      simp only [evalCmd, Cmd.ct, Cmd.args, hargs0]
      simp [evalDispatch, hnn, h0, evalRepeatWith]
  · intro v hvc hvi
    obtain ⟨hf2, hargs1⟩ := hhead v hvc
    cases rest with
    | nil => exact absurd rfl hrest
    | cons r rs =>
      simp only [evalCmd, Cmd.ct, Cmd.args, hargs1]
      cases v with
      | cmd c => exact absurd rfl (hvc c)
      | int m => exact absurd rfl (hvi m)
      | text t => simp [evalDispatch]
      | float q => simp [evalDispatch]
      | bool b => simp [evalDispatch]
      | list l => simp [evalDispatch]
      | ident x => simp [evalDispatch]
      | none => simp [evalDispatch]
  · intro t hn0 hnl hfit
    have hargsP : evalArgsWith (evalCmd (f + 1)) .Repeat
        [.int n, .cmd (.mk .Print [.text t])] 0 false s =
        .ok [.int n, .cmd (.mk .Print [.text t])] false s := by
      simp [evalArgsWith, lazyKeep]
    have hnn : ¬n > (LOOP_LIMIT : Int) := by omega
    have hrep := evalRepeat_print f t n.toNat s hfit
    show evalCmd ((f + 1) + 1) _ _ = _
    rw [evalCmd_succ]
    simp only [Cmd.ct, Cmd.args]
    rw [hargsP]
    simp [evalDispatch, hnn, hrep]

/-- **C3 counterexample**: `repeat(-1, print("a"))` violates the
claimed precondition (the count is negative), but instead of failing
with a typed error the command succeeds: the `for` loop over `0..-1` is
empty, no body runs, and `Repeat` returns `None` with the state
unchanged. -/
theorem C3_counterexample :
    evalCmd 3 (.mk .Repeat [.int (-1), .cmd (.mk .Print [.text "a".data])]) initState =
      .ok .none initState := by
  rfl

/-- Witness for C3: a count of 70000 trips the ceiling, a text count
trips the whole-number error, and `repeat(3, print("a "))` appends
exactly three copies. -/
theorem C3_witness :
    evalCmd 2 (.mk .Repeat [.int 70000, .cmd (.mk .Print [.text "a".data])]) initState =
      .err (genErr .Repeat "must not exceed more than 65535 repetitions".data) initState ∧
    evalCmd 2 (.mk .Repeat [.text "x".data, .cmd (.mk .Print [.text "a".data])]) initState =
      .err (genErr .Repeat ERROR_ARG_ONE_MUST_BE_WHOLE_NUMBER) initState ∧
    evalCmd 3 (.mk .Repeat [.int 3, .cmd (.mk .Print [.text "a ".data])]) initState =
      .ok .none { initState with
        output := initState.output ++ (List.replicate (Int.toNat 3) "a ".data).flatten } :=
  ⟨(C3_repeat_count_rule 1 initState 70000 [.cmd (.mk .Print [.text "a".data])]
      (by simp)).1 (by decide),
    (C3_repeat_count_rule 1 initState 0 [.cmd (.mk .Print [.text "a".data])]
      (by simp)).2.2.1 (.text "x".data) (fun c h => nomatch h) (fun m h => nomatch h),
    (C3_repeat_count_rule 1 initState 3 [.cmd (.mk .Print [.text "a ".data])]
      (by simp)).2.2.2 "a ".data (by decide) (by decide) (by decide)⟩

/-! ## C9: how long the database lock is held -/

/-- `interp_input` (`src/io_utils/input_interp.rs`): lock the database,
run the standalone interpolation pass over the raw input, unlock, then
hand the interpolated text to a fresh database-backed interpreter's
embedded-code scan.  The second component is the lock-event trace of
the standalone pass. -/
def interpInput (fuel : Nat) (dbm : List Char → Option (List Char)) (input : List Char)
    (rand : List Nat) : StrRes × List LockEvent :=
  let ri := interp fuel dbm [] input
  let evs : List LockEvent := .acquire :: ri.looks.map LockEvent.lookup ++ [.release]
  match ri.res with
  | .ok o => (interpretEmbeddedCode fuel o (VmState.new (some dbm) rand), evs)
  | .error .loop =>
    (.err "detected infinitely looping nested templates".data (VmState.new (some dbm) rand), evs)
  | .error .fuelOut => (.fuelOut, evs)

def lockPerLookupOk : List LockEvent → Nat → Bool
  | [], _ => true
  | .acquire :: rest, _ => lockPerLookupOk rest 0
  | .lookup _ :: rest, k => (k == 0) && lockPerLookupOk rest (k + 1)
  | .release :: rest, _ => lockPerLookupOk rest 0

/-- The property the claim asserts of a lock-event trace: the exclusive
lock is held only for the duration of one individual lookup, i.e. no
acquire/release span contains more than one lookup. -/
def lockHeldPerLookup (evs : List LockEvent) : Bool := lockPerLookupOk evs 0

/-- The substitution source `a ↦ "'b 'b"`, `b ↦ "x"`: one `GetSub`
lookup recursively triggers two more. -/
def dbC9 : List Char → Option (List Char) := fun n =>
  if n = "a".data then some "'b 'b".data
  else if n = "b".data then some "x".data
  else Option.none

def sDb : VmState := VmState.new (some dbC9) []

/-- **C9 counterexample**: evaluating `get_sub("a")` against `dbC9`
performs three lookups (`a`, then `b` twice from the recursive
interpolation descent) inside a single acquire/release span — the lock
is held across the whole recursive interpolation, not per individual
lookup, so the claimed trace property is violated. -/
theorem C9_counterexample :
    evalCmd 2 (.mk .GetSub [.text "a".data]) sDb =
      .ok (.text "x x".data)
        { sDb with events := [.acquire, .lookup "a".data, .lookup "b".data,
            .lookup "b".data, .release] } ∧
    lockHeldPerLookup [.acquire, .lookup "a".data, .lookup "b".data, .lookup "b".data,
        .release] = false := by
  exact ⟨rfl, rfl⟩

/-- **C9 (amended)**: every evaluation of `GetSub` with a database
present acquires the lock exactly once and holds it across the entire
recursive interpolation run — the trace it appends is `acquire`, then
one `lookup` event per substitution query of the whole run, then
`release`; the pipeline's standalone interpolation pass (`interp_input`)
produces a trace of the same single-span shape.  The lock is released
only after the full pass, not between individual lookups. -/
theorem C9_lock_held_across_pass (f : Nat) (s : VmState) (sub : List Char)
    (dbm : List Char → Option (List Char)) (hdb : s.db = some dbm) :
    (∀ (v : Val) (s' : VmState),
      evalCmd (f + 1) (.mk .GetSub [.text sub]) s = .ok v s' →
      ∃ names : List (List Char),
        s'.events = s.events ++ .acquire :: names.map LockEvent.lookup ++ [.release]) ∧
    (∀ (e : List Char) (s' : VmState),
      evalCmd (f + 1) (.mk .GetSub [.text sub]) s = .err e s' →
      ∃ names : List (List Char),
        s'.events = s.events ++ .acquire :: names.map LockEvent.lookup ++ [.release]) ∧
    (∀ (fuel : Nat) (input : List Char) (rand : List Nat),
      (interpInput fuel dbm input rand).2 =
        .acquire :: (interp fuel dbm [] input).looks.map LockEvent.lookup ++ [.release]) := by
  have hstep : ∀ r : Res,
      evalCmd (f + 1) (.mk .GetSub [.text sub]) s = r →
      (∀ (v : Val) (s' : VmState), r = .ok v s' →
        ∃ names : List (List Char),
          s'.events = s.events ++ .acquire :: names.map LockEvent.lookup ++ [.release]) ∧
      (∀ (e : List Char) (s' : VmState), r = .err e s' →
        ∃ names : List (List Char),
          s'.events = s.events ++ .acquire :: names.map LockEvent.lookup ++ [.release]) := by
    intro r hr
    rw [evalCmd_succ] at hr
    simp only [Cmd.ct, Cmd.args, evalArgsWith] at hr
    simp only [evalDispatch, hdb] at hr
    rcases hri : (interp (f + 1) dbm s.interpSet (templCarrot :: sub)).res with e | o <;>
      rw [hri] at hr
    · cases e
      · constructor
        · intro v s' hv
          rw [← hr] at hv
          cases hv
        · intro e s' he
          rw [← hr] at he
          cases he
          exact ⟨(interp (f + 1) dbm s.interpSet (templCarrot :: sub)).looks, by simp⟩
      · constructor
        · intro v s' hv
          rw [← hr] at hv
          cases hv
        · intro e s' he
          rw [← hr] at he
          cases he
    · constructor
      · intro v s' hv
        rw [← hr] at hv
        cases hv
        exact ⟨(interp (f + 1) dbm s.interpSet (templCarrot :: sub)).looks, by simp⟩
      · intro e s' he
        rw [← hr] at he
        cases he
  refine ⟨fun v s' h => ((hstep _ h).1 v s' rfl), fun e s' h => ((hstep _ h).2 e s' rfl), ?_⟩
  intro fuel input rand
  rcases hri : (interp fuel dbm [] input).res with e | o
  · cases e <;> simp [interpInput, hri]
  · simp [interpInput, hri]

/-- Witness for C9: the counterexample trace has the single-span shape,
and a concrete `interp_input` trace matches the stated form. -/
theorem C9_witness :
    (∃ names : List (List Char),
      ([.acquire, .lookup "a".data, .lookup "b".data, .lookup "b".data, .release] :
          List LockEvent) =
        sDb.events ++ .acquire :: names.map LockEvent.lookup ++ [.release]) ∧
    (interpInput 2 dbC9 "hello".data []).2 =
      .acquire :: (interp 2 dbC9 [] "hello".data).looks.map LockEvent.lookup ++ [.release] := by
  constructor
  · have h := (C9_lock_held_across_pass 1 sDb "a".data dbC9 rfl).1 (.text "x x".data)
      { sDb with events := [.acquire, .lookup "a".data, .lookup "b".data,
          .lookup "b".data, .release] } (by rfl)
    simpa using h
  · exact (C9_lock_held_across_pass 1 sDb "a".data dbC9 rfl).2.2 2 "hello".data []

/-! ## C4: the brace-scanning pipeline step -/

/-- Balancedness of braces exactly as the scan checks it: the running
depth never goes negative and is zero at end of input. -/
def braceDepthOk : List Char → Int → Bool
  | [], d => d == 0
  | c :: cs, d =>
    if c = '{' then braceDepthOk cs (d + 1)
    else if c = '}' then
      if d - 1 < 0 then false else braceDepthOk cs (d - 1)
    else braceDepthOk cs d

def bracesBalanced (s : List Char) : Bool := braceDepthOk s 0

/-- **C4 counterexample**: the input `{,}}` has unbalanced braces (an
extra `}`), yet the pipeline step does not return the
unmatched-delimiter error: the first `}` dispatches the buffered code
`,` to the evaluator, whose parse fails first, and that syntax error is
returned instead — so "unmatched-delimiter error exactly when
unbalanced" is false. -/
theorem C4_counterexample :
    bracesBalanced "\x7b,\x7d\x7d".data = false ∧
    interpretEmbeddedCode 5 "\x7b,\x7d\x7d".data initState =
      .err "Syntax\nLocation: ,\nDescription: Comma outside of a command".data initState ∧
    ("Syntax\nLocation: ,\nDescription: Comma outside of a command".data ≠
      "Unmatched curly braces".data) := by
  exact ⟨rfl, rfl, by decide⟩

theorem embedScan_plain_char (fuel : Nat) (c : Char) (cs output : List Char)
    (stack : List (List Char)) (s : VmState) (hc1 : c ≠ '{') (hc2 : c ≠ '}') :
    embedScan fuel (c :: cs) output stack 0 s =
      embedScan fuel cs (output ++ [c]) stack 0 s := by
  simp [embedScan, hc1, hc2]

theorem embedScan_buffer_char (fuel : Nat) (c : Char) (cs output top : List Char)
    (st : List (List Char)) (depth : Int) (s : VmState)
    (hd : depth ≠ 0) (hc1 : c ≠ '{') (hc2 : c ≠ '}') :
    embedScan fuel (c :: cs) output (top :: st) depth s =
      embedScan fuel cs output ((top ++ [c]) :: st) depth s := by
  simp [embedScan, hc1, hc2, hd]

theorem embedScan_unbalanced (fuel : Nat) :
    ∀ (cs output : List Char) (stack : List (List Char)) (depth : Int) (s : VmState),
      braceDepthOk cs depth = false →
      ∀ (v : List Char) (s' : VmState), embedScan fuel cs output stack depth s ≠ .ok v s' := by
  intro cs
  induction cs with
  | nil =>
    intro output stack depth s hb v s'
    have hd : depth ≠ 0 := by simpa [braceDepthOk] using hb
    simp [embedScan, hd]
  | cons c cs ih =>
    intro output stack depth s hb v s'
    by_cases hc1 : c = '{'
    · rw [braceDepthOk, if_pos hc1] at hb
      simp only [embedScan, if_pos hc1]
      exact ih _ _ _ _ hb v s'
    · by_cases hc2 : c = '}'
      · rw [braceDepthOk, if_neg hc1, if_pos hc2] at hb
        by_cases hneg : depth - 1 < 0
        · simp [embedScan, hc1, hc2, hneg]
        · rw [if_neg hneg] at hb
          simp only [embedScan, if_neg hc1, if_pos hc2, if_neg hneg]
          cases stack with
          | nil => exact ih _ _ _ _ hb v s'
          | cons code stack' =>
            cases hint : interpret fuel code s with
            | ok o s2 =>
              cases stack' with
              | nil =>
                simp only [hint]
                exact ih _ _ _ _ hb v s'
              | cons top rest =>
                simp only [hint]
                exact ih _ _ _ _ hb v s'
            | err e s2 => simp [hint]
            | fuelOut => simp [hint]
      · rw [braceDepthOk, if_neg hc1, if_neg hc2] at hb
        by_cases hd : depth = 0
        · simp only [embedScan, if_neg hc1, if_neg hc2, if_pos hd]
          exact ih _ _ _ _ (hd ▸ hb) v s'
        · simp only [embedScan, if_neg hc1, if_neg hc2, if_neg hd]
          cases stack with
          | nil => exact ih _ _ _ _ hb v s'
          | cons top rest => exact ih _ _ _ _ hb v s'

theorem embedScan_nil_ok (fuel : Nat) (output : List Char) (stack : List (List Char))
    (s : VmState) : embedScan fuel [] output stack 0 s = .ok output s := by
  simp [embedScan]

theorem embedScan_open (fuel : Nat) (cs output : List Char) (stack : List (List Char))
    (depth : Int) (s : VmState) :
    embedScan fuel ('{' :: cs) output stack depth s =
      embedScan fuel cs output ([] :: stack) (depth + 1) s := by
  simp [embedScan]

theorem embedScan_close_top_ok (fuel : Nat) (cs output code r : List Char)
    (s s' : VmState) (hok : interpret fuel code s = .ok r s') :
    embedScan fuel ('}' :: cs) output [code] 1 s =
      embedScan fuel cs (output ++ r) [] 0 s' := by
  have h1 : ('}' : Char) ≠ '{' := by decide
  have h2 : ¬((1 : Int) - 1 < 0) := by norm_num
  simp [embedScan, h1, h2, hok]

theorem embedScan_close_top_err (fuel : Nat) (cs output code e : List Char)
    (s s2 : VmState) (herr : interpret fuel code s = .err e s2) :
    embedScan fuel ('}' :: cs) output [code] 1 s = .err e s2 := by
  have h1 : ('}' : Char) ≠ '{' := by decide
  have h2 : ¬((1 : Int) - 1 < 0) := by norm_num
  simp [embedScan, h1, h2, herr]

theorem embedScan_passthrough (fuel : Nat) :
    ∀ (a rest output : List Char) (stack : List (List Char)) (s : VmState),
      (∀ ch ∈ a, ch ≠ '{' ∧ ch ≠ '}') →
      embedScan fuel (a ++ rest) output stack 0 s =
        embedScan fuel rest (output ++ a) stack 0 s := by
  intro a
  induction a with
  | nil => intro rest output stack s _; simp
  | cons c a ih =>
    intro rest output stack s h
    obtain ⟨hc1, hc2⟩ := h c (by simp)
    rw [List.cons_append, embedScan_plain_char fuel c _ _ _ _ hc1 hc2,
      ih rest (output ++ [c]) stack s (fun x hx => h x (by simp [hx])),
      List.append_assoc, List.singleton_append]

theorem embedScan_buffer (fuel : Nat) :
    ∀ (a rest output top : List Char) (st : List (List Char)) (depth : Int) (s : VmState),
      depth ≠ 0 →
      (∀ ch ∈ a, ch ≠ '{' ∧ ch ≠ '}') →
      embedScan fuel (a ++ rest) output (top :: st) depth s =
        embedScan fuel rest output ((top ++ a) :: st) depth s := by
  intro a
  induction a with
  | nil => intro rest output top st depth s _ _; simp
  | cons c a ih =>
    intro rest output top st depth s hd h
    obtain ⟨hc1, hc2⟩ := h c (by simp)
    rw [List.cons_append, embedScan_buffer_char fuel c _ _ _ _ _ _ hd hc1 hc2,
      ih rest output (top ++ [c]) st depth s hd (fun x hx => h x (by simp [hx])),
      List.append_assoc, List.singleton_append]

/-- **C4 (amended)**: an input with unbalanced braces (negative running
depth, or nonzero depth at end of input) never succeeds — but the error
is the unmatched-delimiter error only when every code block dispatched
before the imbalance evaluates successfully; a failing earlier block's
own error is returned instead.  For balanced inputs the scan behaves as
claimed: brace-free text passes through unchanged and in order with the
state untouched, and a single block `a{c}b` (with `a`, `c`, `b`
brace-free) dispatches `c` to the evaluator and splices its result
(`a ++ result ++ b` on success, the evaluator's error on failure). -/
theorem C4_brace_scan (fuel : Nat) :
    (∀ (input : List Char) (s : VmState), bracesBalanced input = false →
      ∀ (v : List Char) (s' : VmState), interpretEmbeddedCode fuel input s ≠ .ok v s') ∧
    (∀ (input : List Char) (s : VmState), (∀ ch ∈ input, ch ≠ '{' ∧ ch ≠ '}') →
      interpretEmbeddedCode fuel input s = .ok input s) ∧
    (∀ (a c b r : List Char) (s s' : VmState),
      (∀ ch ∈ a, ch ≠ '{' ∧ ch ≠ '}') → (∀ ch ∈ c, ch ≠ '{' ∧ ch ≠ '}') →
      (∀ ch ∈ b, ch ≠ '{' ∧ ch ≠ '}') →
      interpret fuel c s = .ok r s' →
      interpretEmbeddedCode fuel (a ++ '{' :: (c ++ '}' :: b)) s = .ok (a ++ r ++ b) s') ∧
    (∀ (a c b e : List Char) (s s2 : VmState),
      (∀ ch ∈ a, ch ≠ '{' ∧ ch ≠ '}') → (∀ ch ∈ c, ch ≠ '{' ∧ ch ≠ '}') →
      interpret fuel c s = .err e s2 →
      interpretEmbeddedCode fuel (a ++ '{' :: (c ++ '}' :: b)) s = .err e s2) := by
  have plainAll : ∀ (a output : List Char) (stack : List (List Char)) (s : VmState),
      (∀ ch ∈ a, ch ≠ '{' ∧ ch ≠ '}') →
      embedScan fuel a output stack 0 s = .ok (output ++ a) s := by
    intro a output stack s h
    have h1 := embedScan_passthrough fuel a [] output stack s h
    rw [List.append_nil] at h1
    rw [h1, embedScan_nil_ok]
  have h01 : (0 : Int) + 1 = 1 := by norm_num
  refine ⟨?_, ?_, ?_, ?_⟩
  · intro input s hb v s'
    exact embedScan_unbalanced fuel input [] [] 0 s hb v s'
  · intro input s h
    rw [interpretEmbeddedCode, plainAll input [] [] s h, List.nil_append]
  · intro a c b r s s' ha hc hb hok
    rw [interpretEmbeddedCode,
      embedScan_passthrough fuel a ('{' :: (c ++ '}' :: b)) [] [] s ha,
      List.nil_append, embedScan_open,
      embedScan_buffer fuel c ('}' :: b) a [] [] (0 + 1) s (by norm_num) hc,
      List.nil_append, h01, embedScan_close_top_ok fuel b a c r s s' hok,
      plainAll b (a ++ r) [] s' hb, List.append_assoc]
  · intro a c b e s s2 ha hc herr
    rw [interpretEmbeddedCode,
      embedScan_passthrough fuel a ('{' :: (c ++ '}' :: b)) [] [] s ha,
      List.nil_append, embedScan_open,
      embedScan_buffer fuel c ('}' :: b) a [] [] (0 + 1) s (by norm_num) hc,
      List.nil_append, h01, embedScan_close_top_err fuel b a c e s s2 herr]

/-- Witness for C4: a lone `}` never succeeds; plain text passes
through; `A {print("X")} B` splices the block's output; a
division-by-zero block propagates its own error. -/
theorem C4_witness :
    (∀ (v : List Char) (s' : VmState),
      interpretEmbeddedCode 5 "\x7d".data initState ≠ .ok v s') ∧
    interpretEmbeddedCode 5 "plain".data initState = .ok "plain".data initState ∧
    interpretEmbeddedCode 5 ("A ".data ++ '{' :: ("print(\"X\")".data ++ '}' :: " B".data))
        initState = .ok ("A ".data ++ "X".data ++ " B".data) initState ∧
    interpretEmbeddedCode 5 ("".data ++ '{' :: ("div(5,0)".data ++ '}' :: "".data)) initState =
      .err (genErr .Divide ERROR_ZERO_DIVISION) initState :=
  ⟨(C4_brace_scan 5).1 "\x7d".data initState (by decide),
    (C4_brace_scan 5).2.1 "plain".data initState (by decide),
    (C4_brace_scan 5).2.2.1 "A ".data "print(\"X\")".data " B".data "X".data initState
      initState (by decide) (by decide) (by decide) (by rfl),
    (C4_brace_scan 5).2.2.2 "".data "div(5,0)".data "".data
      (genErr .Divide ERROR_ZERO_DIVISION) initState initState (by decide) (by decide)
      (by rfl)⟩

/-! ## C8: what can reach the variable store -/

mutual
/-- Storable value kinds: `Text`, `Int`, `Float`, `Bool`, and `List`s
of storable values — never `Identifier`, `Command` or `None`. -/
def storable : Val → Bool
  | .text _ => true
  | .int _ => true
  | .float _ => true
  | .bool _ => true
  | .list l => storableList l
  | .ident _ => false
  | .cmd _ => false
  | .none => false

def storableList : List Val → Bool
  | [] => true
  | v :: vs => storable v && storableList vs
end

/-- Values the evaluator can return: never a `Command`, and a returned
list has storable elements (`Identifier` and `None` can be returned but
are rejected at the store operations). -/
def resultOk : Val → Bool
  | .cmd _ => false
  | .list l => storableList l
  | _ => true

mutual
/-- Argument values the parser can produce: literals, identifiers and
nested commands — never `List` or `None` literals. -/
def wfVal : Val → Bool
  | .text _ => true
  | .int _ => true
  | .float _ => true
  | .bool _ => true
  | .ident _ => true
  | .cmd c => wfCmd c
  | .list _ => false
  | .none => false

def wfCmd : Cmd → Bool
  | .mk _ args => wfArgs args

def wfArgs : List Val → Bool
  | [] => true
  | v :: vs => wfVal v && wfArgs vs
end

/-- The store invariant: every value held by the variable store is
storable. -/
def stateOk (s : VmState) : Bool := s.vars.data.all fun p => storable p.2

theorem storableList_iff (l : List Val) :
    storableList l = true ↔ ∀ v ∈ l, storable v = true := by
  induction l with
  | nil => simp [storableList]
  | cons v vs ih => simp [storableList, ih]

theorem storable_resultOk (v : Val) (h : storable v = true) : resultOk v = true := by
  cases v <;> simp_all [storable, resultOk]

theorem resultOk_storable (v : Val) (h : resultOk v = true)
    (hid : ∀ t, v ≠ .ident t) (hn : v ≠ .none) : storable v = true := by
  cases v with
  | ident t => exact absurd rfl (hid t)
  | none => exact absurd rfl hn
  | cmd c => exact absurd h (by simp [resultOk])
  | list l => simpa [resultOk] using h
  | text t => rfl
  | int n => rfl
  | float q => rfl
  | bool b => rfl

theorem updateAssoc_storable (k : List Char) (v : Val) (hv : storable v = true) :
    ∀ m : List (List Char × Val), (∀ p ∈ m, storable p.2 = true) →
      ∀ p ∈ updateAssoc m k v, storable p.2 = true := by
  intro m
  induction m with
  | nil =>
    intro _ p hp
    simp only [updateAssoc, List.mem_singleton] at hp
    subst hp
    exact hv
  | cons q m ih =>
    intro hall p hp
    rw [updateAssoc] at hp
    by_cases hk : q.1 = k
    · rw [if_pos hk] at hp
      rcases List.mem_cons.mp hp with h | h
      · subst h; exact hv
      · exact hall p (by simp [h])
    · rw [if_neg hk] at hp
      rcases List.mem_cons.mp hp with h | h
      · subst h; exact hall q (by simp)
      · exact ih (fun x hx => hall x (by simp [hx])) p h

theorem insertVar_stateOk (m : VarMap) (k : List Char) (v : Val) (m' : VarMap)
    (hv : storable v = true) (hall : ∀ p ∈ m.data, storable p.2 = true)
    (h : m.insertVar k v = .ok m') : ∀ p ∈ m'.data, storable p.2 = true := by
  rw [VarMap.insertVar] at h
  split at h
  · cases h
    exact updateAssoc_storable k v hv m.data hall
  · cases h

theorem getVar_storable (m : VarMap) (k : List Char) (v : Val)
    (hall : ∀ p ∈ m.data, storable p.2 = true) (h : m.getVar k = some v) :
    storable v = true := by
  rw [VarMap.getVar] at h
  rcases hf : m.data.find? (fun p => p.1 == k) with _ | p
  · rw [hf] at h; cases h
  · rw [hf] at h
    cases h
    exact hall p (List.mem_of_find?_eq_some hf)

/-- `lazyCt`: the four control-flow commands that may keep unevaluated
`Command` arguments. -/
def lazyCt : CommandType → Bool
  | .IfThen => true
  | .IfThenElse => true
  | .Repeat => true
  | .While => true
  | _ => false

theorem lazyKeep_lazyCt (ct : CommandType) (i : Nat) (h : lazyKeep ct i = true) :
    lazyCt ct = true := by
  cases ct <;> simp_all [lazyKeep, lazyCt]

/-- What holds of each entry of the evaluated argument list. -/
def ArgOk (ct : CommandType) (v : Val) : Prop :=
  resultOk v = true ∨ (∃ cc, v = .cmd cc ∧ wfCmd cc = true ∧ lazyCt ct = true)

theorem argOk_nonlazy (ct : CommandType) (v : Val) (hct : lazyCt ct = false)
    (h : ArgOk ct v) : resultOk v = true := by
  rcases h with h | ⟨cc, _, _, hl⟩
  · exact h
  · rw [hct] at hl; cases hl

theorem getD_resultOk (args : List Val) (i : Nat)
    (h : ∀ v ∈ args, resultOk v = true) : resultOk (args.getD i .none) = true := by
  rcases hg : args.get? i with _ | v
  · have hg' : args[i]? = none := by simpa [List.get?_eq_getElem?] using hg
    simp [List.getD, hg', resultOk]
  · simp only [List.getD, hg, Option.getD_some]
    have hg' : args[i]? = some v := by simpa [List.get?_eq_getElem?] using hg
    exact h v (List.getElem?_mem hg')

/-- The induction hypothesis threaded through the evaluator helpers:
the recursive evaluator preserves the store invariant and, on
parser-producible commands, returns well-shaped values. -/
def EvOk (ev : Cmd → VmState → Res) : Prop :=
  ∀ (c : Cmd) (s : VmState), wfCmd c = true → stateOk s = true →
    (∀ (v : Val) (s' : VmState), ev c s = .ok v s' →
      resultOk v = true ∧ stateOk s' = true) ∧
    (∀ (e : List Char) (s' : VmState), ev c s = .err e s' → stateOk s' = true)

def ArgsInv (ct : CommandType) (r : ArgsRes) : Prop :=
  (∀ (vs : List Val) (hf' : Bool) (s' : VmState), r = .ok vs hf' s' →
    stateOk s' = true ∧ ∀ v ∈ vs, ArgOk ct v) ∧
  (∀ (e : List Char) (s' : VmState), r = .err e s' → stateOk s' = true)

def SeqInv (r : SeqRes) : Prop :=
  (∀ s' : VmState, r = .ok s' → stateOk s' = true) ∧
  (∀ (e : List Char) (s' : VmState), r = .err e s' → stateOk s' = true)

def ResInv (r : Res) : Prop :=
  (∀ (v : Val) (s' : VmState), r = .ok v s' → resultOk v = true ∧ stateOk s' = true) ∧
  (∀ (e : List Char) (s' : VmState), r = .err e s' → stateOk s' = true)

theorem argsInv_err (ct : CommandType) (e : List Char) (s' : VmState)
    (hs' : stateOk s' = true) : ArgsInv ct (.err e s') := by
  refine ⟨?_, ?_⟩
  · intro vs hf' s₂ h
    cases h
  · intro e₂ s₂ h
    cases h
    exact hs'

theorem argsInv_fuelOut (ct : CommandType) : ArgsInv ct .fuelOut := by
  refine ⟨?_, ?_⟩
  · intro vs hf' s₂ h
    cases h
  · intro e₂ s₂ h
    cases h

/-- Transport of the argument-loop invariant through one prepend step:
`out` behaves as `r` with a well-shaped value `a` prepended to success
results. -/
theorem argsInv_cons (ct : CommandType) (a : Val) (hA : ArgOk ct a) (r out : ArgsRes)
    (hr : ArgsInv ct r)
    (hok : ∀ vs hf' s', r = .ok vs hf' s' → out = .ok (a :: vs) hf' s')
    (herr : ∀ e s', r = .err e s' → out = .err e s')
    (hfo : r = .fuelOut → out = .fuelOut) : ArgsInv ct out := by
  cases r with
  | ok vs hf' s' =>
    rw [hok vs hf' s' rfl]
    obtain ⟨h1, h2⟩ := hr.1 vs hf' s' rfl
    refine ⟨?_, ?_⟩
    · intro vs₂ hf₂ s₂ h
      cases h
      refine ⟨h1, ?_⟩
      intro v hv
      rcases List.mem_cons.mp hv with h | h
      · subst h
        exact hA
      · exact h2 v h
    · intro e s₂ h
      cases h
  | err e s' =>
    rw [herr e s' rfl]
    exact argsInv_err ct e s' (hr.2 e s' rfl)
  | fuelOut =>
    rw [hfo rfl]
    exact argsInv_fuelOut ct

theorem evalArgsWith_inv (ev : Cmd → VmState → Res) (hev : EvOk ev) (ct : CommandType) :
    ∀ (args : List Val) (i : Nat) (hf : Bool) (s : VmState),
      wfArgs args = true → stateOk s = true →
      ArgsInv ct (evalArgsWith ev ct args i hf s) := by
  intro args
  induction args with
  | nil =>
    intro i hf s _ hs
    refine ⟨?_, ?_⟩
    · intro vs hf' s' h
      cases h
      exact ⟨hs, by simp⟩
    · intro e s' h
      cases h
  | cons a rest ih =>
    intro i hf s hwf hs
    rw [wfArgs, Bool.and_eq_true] at hwf
    obtain ⟨hwa, hwrest⟩ := hwf
    cases a with
    | cmd sub =>
      have hwsub : wfCmd sub = true := by simpa [wfVal] using hwa
      by_cases hl : lazyKeep ct i = true
      · refine argsInv_cons ct (.cmd sub)
          (Or.inr ⟨sub, rfl, hwsub, lazyKeep_lazyCt ct i hl⟩)
          (evalArgsWith ev ct rest (i + 1) hf s) _
          (ih (i + 1) hf s hwrest hs) ?_ ?_ ?_
        · intro vs hf' s' h
          simp [evalArgsWith, hl, h]
        · intro e s' h
          simp [evalArgsWith, hl, h]
        · intro h
          simp [evalArgsWith, hl, h]
      · have hl' : lazyKeep ct i = false := by simpa using hl
        cases hev' : ev sub s with
        | ok v s₂ =>
          obtain ⟨hrv, hs₂⟩ := (hev sub s hwsub hs).1 v s₂ hev'
          refine argsInv_cons ct v (Or.inl hrv)
            (evalArgsWith ev ct rest (i + 1) hf s₂) _
            (ih (i + 1) hf s₂ hwrest hs₂) ?_ ?_ ?_
          · intro vs hf' s' h
            simp [evalArgsWith, hl', hev', h]
          · intro e s' h
            simp [evalArgsWith, hl', hev', h]
          · intro h
            simp [evalArgsWith, hl', hev', h]
        | err e s₂ =>
          have hs₂ := (hev sub s hwsub hs).2 e s₂ hev'
          have hstep : evalArgsWith ev ct (.cmd sub :: rest) i hf s = .err e s₂ := by
            simp [evalArgsWith, hl', hev']
          rw [hstep]
          exact argsInv_err ct e s₂ hs₂
        | fuelOut =>
          have hstep : evalArgsWith ev ct (.cmd sub :: rest) i hf s = .fuelOut := by
            simp [evalArgsWith, hl', hev']
          rw [hstep]
          exact argsInv_fuelOut ct
    | text t =>
      refine argsInv_cons ct (.text t) (Or.inl rfl)
        (evalArgsWith ev ct rest (i + 1) hf s) _ (ih (i + 1) hf s hwrest hs) ?_ ?_ ?_
      · intro vs hf' s' h
        simp [evalArgsWith, h]
      · intro e s' h
        simp [evalArgsWith, h]
      · intro h
        simp [evalArgsWith, h]
    | int n =>
      refine argsInv_cons ct (.int n) (Or.inl rfl)
        (evalArgsWith ev ct rest (i + 1) hf s) _ (ih (i + 1) hf s hwrest hs) ?_ ?_ ?_
      · intro vs hf' s' h
        simp [evalArgsWith, h]
      · intro e s' h
        simp [evalArgsWith, h]
      · intro h
        simp [evalArgsWith, h]
    | float q =>
      refine argsInv_cons ct (.float q) (Or.inl rfl)
        (evalArgsWith ev ct rest (i + 1) true s) _ (ih (i + 1) true s hwrest hs) ?_ ?_ ?_
      · intro vs hf' s' h
        simp [evalArgsWith, h]
      · intro e s' h
        simp [evalArgsWith, h]
      · intro h
        simp [evalArgsWith, h]
    | bool b =>
      refine argsInv_cons ct (.bool b) (Or.inl rfl)
        (evalArgsWith ev ct rest (i + 1) hf s) _ (ih (i + 1) hf s hwrest hs) ?_ ?_ ?_
      · intro vs hf' s' h
        simp [evalArgsWith, h]
      · intro e s' h
        simp [evalArgsWith, h]
      · intro h
        simp [evalArgsWith, h]
    | ident x =>
      refine argsInv_cons ct (.ident x) (Or.inl rfl)
        (evalArgsWith ev ct rest (i + 1) hf s) _ (ih (i + 1) hf s hwrest hs) ?_ ?_ ?_
      · intro vs hf' s' h
        simp [evalArgsWith, h]
      · intro e s' h
        simp [evalArgsWith, h]
      · intro h
        simp [evalArgsWith, h]
    | list l => exact absurd hwa (by simp [wfVal])
    | none => exact absurd hwa (by simp [wfVal])

theorem seqInv_err (e : List Char) (s' : VmState) (hs' : stateOk s' = true) :
    SeqInv (.err e s') := by
  refine ⟨?_, ?_⟩
  · intro s₂ h
    cases h
  · intro e₂ s₂ h
    cases h
    exact hs'

theorem seqInv_fuelOut : SeqInv .fuelOut := by
  refine ⟨?_, ?_⟩
  · intro s₂ h
    cases h
  · intro e₂ s₂ h
    cases h

theorem evalBodyWith_inv (ev : Cmd → VmState → Res) (hev : EvOk ev) (ct : CommandType) :
    ∀ (body : List Val) (s : VmState), stateOk s = true →
      (∀ v ∈ body, ArgOk ct v) → SeqInv (evalBodyWith ev ct body s) := by
  intro body
  induction body with
  | nil =>
    intro s hs _
    refine ⟨?_, ?_⟩
    · intro s' h
      cases h
      exact hs
    · intro e s' h
      cases h
  | cons a rest ih =>
    intro s hs hbody
    cases a with
    | cmd c =>
      have hwc : wfCmd c = true := by
        rcases hbody (.cmd c) (by simp) with h | ⟨cc, hcc, hw, _⟩
        · exact absurd h (by simp [resultOk])
        · cases hcc
          exact hw
      cases hev' : ev c s with
      | ok v s₂ =>
        obtain ⟨_, hs₂⟩ := (hev c s hwc hs).1 v s₂ hev'
        have hstep : evalBodyWith ev ct (.cmd c :: rest) s = evalBodyWith ev ct rest s₂ := by
          simp [evalBodyWith, hev']
        rw [hstep]
        exact ih s₂ hs₂ (fun v hv => hbody v (by simp [hv]))
      | err e s₂ =>
        have hs₂ := (hev c s hwc hs).2 e s₂ hev'
        have hstep : evalBodyWith ev ct (.cmd c :: rest) s = .err e s₂ := by
          simp [evalBodyWith, hev']
        rw [hstep]
        exact seqInv_err e s₂ hs₂
      | fuelOut =>
        have hstep : evalBodyWith ev ct (.cmd c :: rest) s = .fuelOut := by
          simp [evalBodyWith, hev']
        rw [hstep]
        exact seqInv_fuelOut
    | text t => exact seqInv_err _ s hs
    | int n => exact seqInv_err _ s hs
    | float q => exact seqInv_err _ s hs
    | bool b => exact seqInv_err _ s hs
    | list l => exact seqInv_err _ s hs
    | ident x => exact seqInv_err _ s hs
    | none => exact seqInv_err _ s hs

theorem evalRepeatWith_inv (ev : Cmd → VmState → Res) (hev : EvOk ev)
    (body : List Val) (hbody : ∀ v ∈ body, ArgOk .Repeat v) :
    ∀ (k : Nat) (s : VmState), stateOk s = true →
      SeqInv (evalRepeatWith ev body k s) := by
  intro k
  induction k with
  | zero =>
    intro s hs
    refine ⟨?_, ?_⟩
    · intro s' h
      cases h
      exact hs
    · intro e s' h
      cases h
  | succ k ih =>
    intro s hs
    have hb := evalBodyWith_inv ev hev .Repeat body s hs hbody
    cases hbd : evalBodyWith ev .Repeat body s with
    | ok s₂ =>
      have hstep : evalRepeatWith ev body (k + 1) s = evalRepeatWith ev body k s₂ := by
        simp [evalRepeatWith, hbd]
      rw [hstep]
      exact ih s₂ (hb.1 s₂ hbd)
    | err e s₂ =>
      have hstep : evalRepeatWith ev body (k + 1) s = .err e s₂ := by
        simp [evalRepeatWith, hbd]
      rw [hstep]
      exact seqInv_err e s₂ (hb.2 e s₂ hbd)
    | fuelOut =>
      have hstep : evalRepeatWith ev body (k + 1) s = .fuelOut := by
        simp [evalRepeatWith, hbd]
      rw [hstep]
      exact seqInv_fuelOut

theorem resInv_err (e : List Char) (s' : VmState) (hs' : stateOk s' = true) :
    ResInv (.err e s') := by
  refine ⟨?_, ?_⟩
  · intro v s₂ h
    cases h
  · intro e₂ s₂ h
    cases h
    exact hs'

theorem resInv_fuelOut : ResInv .fuelOut := by
  refine ⟨?_, ?_⟩
  · intro v s₂ h
    cases h
  · intro e₂ s₂ h
    cases h

theorem resInv_ok (v : Val) (s' : VmState) (hv : resultOk v = true)
    (hs' : stateOk s' = true) : ResInv (.ok v s') := by
  refine ⟨?_, ?_⟩
  · intro v₂ s₂ h
    cases h
    exact ⟨hv, hs'⟩
  · intro e₂ s₂ h
    cases h

theorem evalWhileWith_inv (ev : Cmd → VmState → Res) (hev : EvOk ev)
    (cond : Cmd) (hcond : wfCmd cond = true) (body : List Val)
    (hbody : ∀ v ∈ body, ArgOk .While v) :
    ∀ (rem : Nat) (s : VmState), stateOk s = true →
      ResInv (evalWhileWith ev cond body rem s) := by
  intro rem
  induction rem with
  | zero =>
    intro s hs
    exact resInv_err _ s hs
  | succ rem ih =>
    intro s hs
    cases hc : ev cond s with
    | ok v s₁ =>
      obtain ⟨hrv, hs₁⟩ := (hev cond s hcond hs).1 v s₁ hc
      cases v with
      | bool b =>
        cases b with
        | true =>
          have hb := evalBodyWith_inv ev hev .While body s₁ hs₁ hbody
          cases hbd : evalBodyWith ev .While body s₁ with
          | ok s₂ =>
            have hs₂ := hb.1 s₂ hbd
            by_cases hrem : rem = 0
            · subst hrem
              have hstep : evalWhileWith ev cond body (0 + 1) s =
                  .err (genErr .While "Loop limit exceeded".data) s₂ := by
                simp [evalWhileWith, hc, hbd]
              rw [hstep]
              exact resInv_err _ s₂ hs₂
            · have hstep : evalWhileWith ev cond body (rem + 1) s =
                  evalWhileWith ev cond body rem s₂ := by
                simp [evalWhileWith, hc, hbd, hrem]
              rw [hstep]
              exact ih s₂ hs₂
          | err e s₂ =>
            have hstep : evalWhileWith ev cond body (rem + 1) s = .err e s₂ := by
              simp [evalWhileWith, hc, hbd]
            rw [hstep]
            exact resInv_err e s₂ (hb.2 e s₂ hbd)
          | fuelOut =>
            have hstep : evalWhileWith ev cond body (rem + 1) s = .fuelOut := by
              simp [evalWhileWith, hc, hbd]
            rw [hstep]
            exact resInv_fuelOut
        | false =>
          have hstep : evalWhileWith ev cond body (rem + 1) s = .ok .none s₁ := by
            simp [evalWhileWith, hc]
          rw [hstep]
          exact resInv_ok .none s₁ rfl hs₁
      | text t =>
        have hstep : evalWhileWith ev cond body (rem + 1) s =
            .err (genErr .While ERROR_ARG_ONE_MUST_BE_COMMAND_BOOL) s₁ := by
          simp [evalWhileWith, hc]
        rw [hstep]
        exact resInv_err _ s₁ hs₁
      | int n =>
        have hstep : evalWhileWith ev cond body (rem + 1) s =
            .err (genErr .While ERROR_ARG_ONE_MUST_BE_COMMAND_BOOL) s₁ := by
          simp [evalWhileWith, hc]
        rw [hstep]
        exact resInv_err _ s₁ hs₁
      | float q =>
        have hstep : evalWhileWith ev cond body (rem + 1) s =
            .err (genErr .While ERROR_ARG_ONE_MUST_BE_COMMAND_BOOL) s₁ := by
          simp [evalWhileWith, hc]
        rw [hstep]
        exact resInv_err _ s₁ hs₁
      | list l =>
        have hstep : evalWhileWith ev cond body (rem + 1) s =
            .err (genErr .While ERROR_ARG_ONE_MUST_BE_COMMAND_BOOL) s₁ := by
          simp [evalWhileWith, hc]
        rw [hstep]
        exact resInv_err _ s₁ hs₁
      | ident x =>
        have hstep : evalWhileWith ev cond body (rem + 1) s =
            .err (genErr .While ERROR_ARG_ONE_MUST_BE_COMMAND_BOOL) s₁ := by
          simp [evalWhileWith, hc]
        rw [hstep]
        exact resInv_err _ s₁ hs₁
      | cmd c =>
        have hstep : evalWhileWith ev cond body (rem + 1) s =
            .err (genErr .While ERROR_ARG_ONE_MUST_BE_COMMAND_BOOL) s₁ := by
          simp [evalWhileWith, hc]
        rw [hstep]
        exact resInv_err _ s₁ hs₁
      | none =>
        have hstep : evalWhileWith ev cond body (rem + 1) s =
            .err (genErr .While ERROR_ARG_ONE_MUST_BE_COMMAND_BOOL) s₁ := by
          simp [evalWhileWith, hc]
        rw [hstep]
        exact resInv_err _ s₁ hs₁
    | err e s₁ =>
      have hs₁ := (hev cond s hcond hs).2 e s₁ hc
      have hstep : evalWhileWith ev cond body (rem + 1) s = .err e s₁ := by
        simp [evalWhileWith, hc]
      rw [hstep]
      exact resInv_err e s₁ hs₁
    | fuelOut =>
      have hstep : evalWhileWith ev cond body (rem + 1) s = .fuelOut := by
        simp [evalWhileWith, hc]
      rw [hstep]
      exact resInv_fuelOut

theorem evalArith_resultOk (ct : CommandType) (args : List Val) (hf : Bool) (v : Val)
    (h : evalArith ct args hf = .ok v) : resultOk v = true := by
  rw [evalArith.eq_def] at h
  split at h
  · cases h
  · cases h
  · split at h
    · split at h
      · split at h
        · cases h
          rfl
        · cases h
      · cases h
    · split at h
      · split at h
        · cases h
          rfl
        · cases h
        · cases h
      · cases h

theorem ofExcept_resInv (r : Except (List Char) Val) (s : VmState) (hs : stateOk s = true)
    (hok : ∀ v, r = .ok v → resultOk v = true) : ResInv (ofExcept r s) := by
  cases r with
  | ok v => exact resInv_ok v s (hok v rfl) hs
  | error e => exact resInv_err e s hs

theorem foldBool_bool (ct : CommandType) (op : Bool → Bool → Bool) (b : Bool)
    (args : List Val) (v : Val) (h : ((foldBool ct op b args).map Val.bool) = .ok v) :
    ∃ b', v = .bool b' := by
  cases hr : foldBool ct op b args with
  | ok b' =>
    rw [hr] at h
    cases h
    exact ⟨b', rfl⟩
  | error e =>
    rw [hr] at h
    cases h

theorem collectCopyList_ok :
    ∀ l lst : List Val, collectCopyList l = .ok lst →
      lst = l ∧ ∀ v ∈ l, (∀ t, v ≠ .ident t) ∧ v ≠ .none := by
  intro l
  induction l with
  | nil =>
    intro lst h
    cases h
    exact ⟨rfl, by simp⟩
  | cons v vs ih =>
    intro lst h
    have step : (collectCopyList (v :: vs) = (collectCopyList vs).map (v :: ·)) →
        ((∀ t, v ≠ .ident t) ∧ v ≠ .none) →
        lst = v :: vs ∧ ∀ x ∈ v :: vs, (∀ t, x ≠ .ident t) ∧ x ≠ .none := by
      intro hv hvp
      rw [hv] at h
      cases hr : collectCopyList vs with
      | ok lst' =>
        rw [hr] at h
        cases h
        obtain ⟨he, hprops⟩ := ih lst' hr
        subst he
        refine ⟨rfl, ?_⟩
        intro x hx
        rcases List.mem_cons.mp hx with hx | hx
        · subst hx
          exact hvp
        · exact hprops x hx
      | error e =>
        rw [hr] at h
        cases h
    cases v with
    | ident t =>
      rw [collectCopyList] at h
      cases h
    | none =>
      rw [collectCopyList] at h
      cases h
    | text t => exact step rfl ⟨(fun t h => nomatch h), (fun h => nomatch h)⟩
    | int n => exact step rfl ⟨(fun t h => nomatch h), (fun h => nomatch h)⟩
    | float q => exact step rfl ⟨(fun t h => nomatch h), (fun h => nomatch h)⟩
    | bool b => exact step rfl ⟨(fun t h => nomatch h), (fun h => nomatch h)⟩
    | list l => exact step rfl ⟨(fun t h => nomatch h), (fun h => nomatch h)⟩
    | cmd c => exact step rfl ⟨(fun t h => nomatch h), (fun h => nomatch h)⟩

theorem storableList_of_mem (l : List Val) (h : ∀ v ∈ l, storable v = true) :
    storableList l = true := (storableList_iff l).mpr h

theorem storableList_mem (l : List Val) (h : storableList l = true) :
    ∀ v ∈ l, storable v = true := (storableList_iff l).mp h

theorem stateOk_insert (s : VmState) (m' : VarMap) (id : List Char) (v : Val)
    (hs : stateOk s = true) (hv : storable v = true)
    (h : s.vars.insertVar id v = .ok m') : stateOk { s with vars := m' } = true := by
  rw [stateOk, List.all_eq_true]
  rw [stateOk, List.all_eq_true] at hs
  intro p hp
  exact insertVar_stateOk s.vars id v m' hv (fun q hq => hs q hq) h p hp

theorem storableList_sub (l l' : List Val) (h : ∀ v ∈ l', v ∈ l)
    (hl : storableList l = true) : storableList l' = true := by
  apply storableList_of_mem
  intro v hv
  exact storableList_mem l hl v (h v hv)

theorem storableList_insertAt (l : List Val) (n : Nat) (v : Val)
    (hl : storableList l = true) (hv : storable v = true) :
    storableList (l.take n ++ v :: l.drop n) = true := by
  apply storableList_of_mem
  intro x hx
  rcases List.mem_append.mp hx with hx | hx
  · exact storableList_mem l hl x (List.mem_of_mem_take hx)
  · rcases List.mem_cons.mp hx with rfl | hx
    · exact hv
    · exact storableList_mem l hl x (List.mem_of_mem_drop hx)

theorem storableList_removeAt (l : List Val) (n : Nat) (hl : storableList l = true) :
    storableList (l.take n ++ l.drop (n + 1)) = true := by
  apply storableList_of_mem
  intro x hx
  rcases List.mem_append.mp hx with hx | hx
  · exact storableList_mem l hl x (List.mem_of_mem_take hx)
  · exact storableList_mem l hl x (List.mem_of_mem_drop hx)

theorem storableList_set (l : List Val) (n : Nat) (v : Val)
    (hl : storableList l = true) (hv : storable v = true) :
    storableList (l.set n v) = true := by
  apply storableList_of_mem
  intro x hx
  rcases List.mem_or_eq_of_mem_set hx with hx | rfl
  · exact storableList_mem l hl x hx
  · exact hv

theorem storableList_slice (l : List Val) (a b : Nat) (hl : storableList l = true) :
    storableList ((l.drop a).take b) = true := by
  apply storableList_of_mem
  intro x hx
  exact storableList_mem l hl x (List.mem_of_mem_drop (List.mem_of_mem_take hx))

theorem listSwap_mem {α : Type} (l : List α) (i j : Nat) :
    ∀ x ∈ listSwap l i j, x ∈ l := by
  intro x hx
  rw [listSwap] at hx
  rcases hi : l.get? i with _ | y
  · rw [hi] at hx
    exact hx
  · rw [hi] at hx
    rcases hj : l.get? j with _ | z
    · rw [hj] at hx
      exact hx
    · rw [hj] at hx
      rcases List.mem_or_eq_of_mem_set hx with hx | rfl
      · rcases List.mem_or_eq_of_mem_set hx with hx | rfl
        · exact hx
        · exact List.getElem?_mem (by simpa [List.get?_eq_getElem?] using hj)
      · exact List.getElem?_mem (by simpa [List.get?_eq_getElem?] using hi)

/-- Both halves of the `Copy` store step respect the invariant. -/
theorem copy_insert_inv (s : VmState) (id : List Char) (a : Val)
    (hs : stateOk s = true) (ha : storable a = true) :
    ResInv (match s.vars.insertVar id a with
            | .ok m => Res.ok .none { s with vars := m }
            | .error e => Res.err e s) := by
  cases h : s.vars.insertVar id a with
  | ok m => exact resInv_ok _ _ rfl (stateOk_insert s m id a hs ha h)
  | error e => exact resInv_err _ _ hs

/-- Every command dispatch preserves the store invariant and returns a
well-shaped value, given well-shaped arguments. -/
theorem evalDispatch_inv (ev : Cmd → VmState → Res) (hev : EvOk ev) (ifuel : Nat)
    (ct : CommandType) (args : List Val) (hf : Bool) (s : VmState)
    (hs : stateOk s = true) (hargs : ∀ v ∈ args, ArgOk ct v) :
    ResInv (evalDispatch ev ifuel ct args hf s) := by
  cases ct with
  | Add =>
    simp only [evalDispatch]
    exact ofExcept_resInv _ _ hs (fun v hv => evalArith_resultOk _ _ _ _ hv)
  | Subtract =>
    simp only [evalDispatch]
    exact ofExcept_resInv _ _ hs (fun v hv => evalArith_resultOk _ _ _ _ hv)
  | Multiply =>
    simp only [evalDispatch]
    exact ofExcept_resInv _ _ hs (fun v hv => evalArith_resultOk _ _ _ _ hv)
  | Divide =>
    simp only [evalDispatch]
    exact ofExcept_resInv _ _ hs (fun v hv => evalArith_resultOk _ _ _ _ hv)
  | Mod =>
    simp only [evalDispatch]
    exact ofExcept_resInv _ _ hs (fun v hv => evalArith_resultOk _ _ _ _ hv)
  | SelectRandom =>
    have hres : ∀ v ∈ args, resultOk v = true :=
      fun v hv => argOk_nonlazy .SelectRandom v rfl (hargs v hv)
    simp only [evalDispatch]
    cases args with
    | nil => exact resInv_err _ _ hs
    | cons a rest =>
      cases rest with
      | nil => exact resInv_err _ _ hs
      | cons b rest2 =>
        exact resInv_ok _ _ (getD_resultOk (a :: b :: rest2) _ hres) hs
  | RandomRange =>
    simp only [evalDispatch]
    cases args with
    | nil => exact resInv_err _ _ hs
    | cons a rest =>
      cases rest with
      | nil => exact resInv_err _ _ hs
      | cons b rest2 =>
        cases rest2 with
        | cons c rest3 => exact resInv_err _ _ hs
        | nil =>
          cases a <;> cases b <;> try exact resInv_err _ _ hs
          all_goals dsimp only
          all_goals split
          all_goals first
            | exact resInv_ok _ _ rfl hs
            | exact resInv_err _ _ hs
  | Capitalize =>
    simp only [evalDispatch]
    cases args with
    | nil => exact resInv_err _ _ hs
    | cons a rest =>
      cases rest with
      | cons b rest2 => exact resInv_err _ _ hs
      | nil =>
        cases a
        case text t =>
          cases t with
          | nil => exact resInv_ok _ _ rfl hs
          | cons c cs => exact resInv_ok _ _ rfl hs
        all_goals exact resInv_err _ _ hs
  | Upper =>
    simp only [evalDispatch]
    cases args with
    | nil => exact resInv_err _ _ hs
    | cons a rest =>
      cases rest with
      | cons b rest2 => exact resInv_err _ _ hs
      | nil =>
        cases a
        case text t => exact resInv_ok _ _ rfl hs
        all_goals exact resInv_err _ _ hs
  | Lower =>
    simp only [evalDispatch]
    cases args with
    | nil => exact resInv_err _ _ hs
    | cons a rest =>
      cases rest with
      | cons b rest2 => exact resInv_err _ _ hs
      | nil =>
        cases a
        case text t => exact resInv_ok _ _ rfl hs
        all_goals exact resInv_err _ _ hs
  | RemoveWhitespace =>
    simp only [evalDispatch]
    cases args with
    | nil => exact resInv_err _ _ hs
    | cons a rest =>
      cases rest with
      | cons b rest2 => exact resInv_err _ _ hs
      | nil =>
        cases a
        case text t => exact resInv_ok _ _ rfl hs
        all_goals exact resInv_err _ _ hs
  | Repeat =>
    simp only [evalDispatch]
    cases args with
    | nil => exact resInv_err _ _ hs
    | cons a0 rest =>
      cases rest with
      | nil => exact resInv_err _ _ hs
      | cons b1 body =>
        have hbody : ∀ v ∈ b1 :: body, ArgOk .Repeat v :=
          fun v hv => hargs v (List.mem_cons_of_mem _ hv)
        cases a0
        case int n =>
          dsimp only
          by_cases hn : n > (LOOP_LIMIT : Int)
          · rw [if_pos hn]
            exact resInv_err _ _ hs
          · rw [if_neg hn]
            have hseq := evalRepeatWith_inv ev hev (b1 :: body) hbody n.toNat s hs
            cases hr : evalRepeatWith ev (b1 :: body) n.toNat s with
            | ok s' => exact resInv_ok _ _ rfl (hseq.1 s' hr)
            | err e s' => exact resInv_err _ _ (hseq.2 e s' hr)
            | fuelOut => exact resInv_fuelOut
        all_goals exact resInv_err _ _ hs
  | While =>
    simp only [evalDispatch]
    cases args with
    | nil => exact resInv_err _ _ hs
    | cons a0 rest =>
      cases rest with
      | nil => exact resInv_err _ _ hs
      | cons b1 body =>
        have h0 : ArgOk .While a0 := hargs a0 (List.mem_cons_self _ _)
        have hbody : ∀ v ∈ b1 :: body, ArgOk .While v :=
          fun v hv => hargs v (List.mem_cons_of_mem _ hv)
        cases a0
        case cmd c =>
          rcases h0 with h0 | ⟨cc, heq, hwf, hl⟩
          · exact absurd h0 (by simp [resultOk])
          · cases heq
            exact evalWhileWith_inv ev hev c hwf (b1 :: body) hbody LOOP_LIMIT s hs
        all_goals exact resInv_err _ _ hs
  | Copy =>
    have hres : ∀ v ∈ args, resultOk v = true :=
      fun v hv => argOk_nonlazy .Copy v rfl (hargs v hv)
    simp only [evalDispatch]
    cases args with
    | nil => exact resInv_err _ _ hs
    | cons a rest =>
      cases rest with
      | nil => exact resInv_err _ _ hs
      | cons b rest2 =>
        cases rest2 with
        | nil =>
          cases b
          case ident id =>
            cases a
            case ident t => exact resInv_err _ _ hs
            case none => exact resInv_err _ _ hs
            case text t => exact copy_insert_inv s id _ hs rfl
            case int n => exact copy_insert_inv s id _ hs rfl
            case float q => exact copy_insert_inv s id _ hs rfl
            case bool bb => exact copy_insert_inv s id _ hs rfl
            case list l => exact copy_insert_inv s id _ hs (hres (.list l) (by simp))
            case cmd c => exact absurd (hres (.cmd c) (by simp)) (by simp [resultOk])
          all_goals exact resInv_err _ _ hs
        | cons c rest3 =>
          dsimp only
          cases hlast : (a :: b :: c :: rest3).getLast? with
          | none => exact resInv_err _ _ hs
          | some w =>
            cases w
            case ident id =>
              dsimp only
              cases hc : collectCopyList (a :: b :: c :: rest3).dropLast with
              | error e => exact resInv_err _ _ hs
              | ok lst =>
                obtain ⟨hle, hprops⟩ := collectCopyList_ok _ lst hc
                have hst : storable (.list lst) = true := by
                  show storableList lst = true
                  apply storableList_of_mem
                  intro v hv
                  rw [hle] at hv
                  have hmem : v ∈ a :: b :: c :: rest3 :=
                    (List.dropLast_sublist _).subset hv
                  exact resultOk_storable v (hres v hmem) (hprops v hv).1 (hprops v hv).2
                exact copy_insert_inv s id (.list lst) hs hst
            all_goals exact resInv_err _ _ hs
  | Paste =>
    simp only [evalDispatch]
    cases args with
    | nil => exact resInv_err _ _ hs
    | cons a rest =>
      cases rest with
      | cons b rest2 => exact resInv_err _ _ hs
      | nil =>
        cases a
        case ident id =>
          dsimp only
          cases hg : s.vars.getVar id with
          | some v =>
            have hall : ∀ p ∈ s.vars.data, storable p.2 = true := by
              have h2 := hs
              rw [stateOk, List.all_eq_true] at h2
              exact h2
            exact resInv_ok v s (storable_resultOk v (getVar_storable s.vars id v hall hg)) hs
          | none => exact resInv_err _ _ hs
        all_goals exact resInv_err _ _ hs
  | Print =>
    simp only [evalDispatch]
    cases hp : printLoop args s.output with
    | mk r out =>
      cases r with
      | ok u => exact resInv_ok _ _ rfl hs
      | error e => exact resInv_err _ _ hs
  | Concatenate =>
    simp only [evalDispatch]
    exact resInv_ok _ _ rfl hs
  | IfThen =>
    simp only [evalDispatch]
    cases args with
    | nil => exact resInv_err _ _ hs
    | cons a rest =>
      cases rest with
      | nil => exact resInv_err _ _ hs
      | cons b rest2 =>
        cases rest2 with
        | cons c rest3 => exact resInv_err _ _ hs
        | nil =>
          have hb : ArgOk .IfThen b := hargs b (by simp)
          cases a
          case bool bv =>
            cases bv with
            | false => exact resInv_ok _ _ rfl hs
            | true =>
              cases b
              case cmd cb =>
                rcases hb with hb | ⟨cc, heq, hwf, hl⟩
                · exact absurd hb (by simp [resultOk])
                · cases heq
                  exact hev cb s hwf hs
              all_goals rcases hb with hb | ⟨cc, heq, hwf, hl⟩
              all_goals try exact resInv_ok _ _ hb hs
              all_goals exact absurd heq (by simp)
          all_goals exact resInv_err _ _ hs
  | IfThenElse =>
    simp only [evalDispatch]
    cases args with
    | nil => exact resInv_err _ _ hs
    | cons a rest =>
      cases rest with
      | nil => exact resInv_err _ _ hs
      | cons b rest2 =>
        cases rest2 with
        | nil => exact resInv_err _ _ hs
        | cons c rest3 =>
          cases rest3 with
          | cons d rest4 => exact resInv_err _ _ hs
          | nil =>
            have hb : ArgOk .IfThenElse b := hargs b (by simp)
            have hc : ArgOk .IfThenElse c := hargs c (by simp)
            cases a
            case bool bv =>
              cases bv with
              | true =>
                cases b
                case cmd cb =>
                  rcases hb with hb | ⟨cc, heq, hwf, hl⟩
                  · exact absurd hb (by simp [resultOk])
                  · cases heq
                    exact hev cb s hwf hs
                all_goals rcases hb with hb | ⟨cc, heq, hwf, hl⟩
                all_goals try exact resInv_ok _ _ hb hs
                all_goals exact absurd heq (by simp)
              | false =>
                cases c
                case cmd cb =>
                  rcases hc with hc | ⟨cc, heq, hwf, hl⟩
                  · exact absurd hc (by simp [resultOk])
                  · cases heq
                    exact hev cb s hwf hs
                all_goals rcases hc with hc | ⟨cc, heq, hwf, hl⟩
                all_goals try exact resInv_ok _ _ hc hs
                all_goals exact absurd heq (by simp)
            all_goals exact resInv_err _ _ hs
  | Not =>
    simp only [evalDispatch]
    cases args with
    | nil => exact resInv_err _ _ hs
    | cons a rest =>
      cases rest with
      | cons b rest2 => exact resInv_err _ _ hs
      | nil =>
        cases a
        case bool bb => exact resInv_ok _ _ rfl hs
        all_goals exact resInv_err _ _ hs
  | And =>
    simp only [evalDispatch]
    cases args with
    | nil => exact resInv_err _ _ hs
    | cons a rest =>
      cases rest with
      | nil => exact resInv_err _ _ hs
      | cons b rest2 =>
        refine ofExcept_resInv _ _ hs ?_
        intro v hv
        obtain ⟨b', rfl⟩ := foldBool_bool _ _ _ _ v hv
        rfl
  | Or =>
    simp only [evalDispatch]
    cases args with
    | nil => exact resInv_err _ _ hs
    | cons a rest =>
      cases rest with
      | nil => exact resInv_err _ _ hs
      | cons b rest2 =>
        refine ofExcept_resInv _ _ hs ?_
        intro v hv
        obtain ⟨b', rfl⟩ := foldBool_bool _ _ _ _ v hv
        rfl
  | Eq =>
    simp only [evalDispatch]
    cases args with
    | nil => exact resInv_err _ _ hs
    | cons a rest =>
      cases rest with
      | nil => exact resInv_err _ _ hs
      | cons b rest2 =>
        cases rest2 with
        | cons c rest3 => exact resInv_err _ _ hs
        | nil =>
          cases a <;> cases b <;>
            first
              | exact resInv_ok _ _ rfl hs
              | exact resInv_err _ _ hs
  | Gt =>
    simp only [evalDispatch]
    cases args with
    | nil => exact resInv_err _ _ hs
    | cons a rest =>
      cases rest with
      | nil => exact resInv_err _ _ hs
      | cons b rest2 =>
        cases rest2 with
        | cons c rest3 => exact resInv_err _ _ hs
        | nil =>
          cases a <;> cases b <;>
            first
              | exact resInv_ok _ _ rfl hs
              | exact resInv_err _ _ hs
  | Lt =>
    simp only [evalDispatch]
    cases args with
    | nil => exact resInv_err _ _ hs
    | cons a rest =>
      cases rest with
      | nil => exact resInv_err _ _ hs
      | cons b rest2 =>
        cases rest2 with
        | cons c rest3 => exact resInv_err _ _ hs
        | nil =>
          cases a <;> cases b <;>
            first
              | exact resInv_ok _ _ rfl hs
              | exact resInv_err _ _ hs
  | StartsWith =>
    simp only [evalDispatch]
    cases args with
    | nil => exact resInv_err _ _ hs
    | cons a rest =>
      cases rest with
      | nil => exact resInv_err _ _ hs
      | cons b rest2 =>
        cases rest2 with
        | cons c rest3 => exact resInv_err _ _ hs
        | nil =>
          cases a <;> cases b <;>
            first
              | exact resInv_ok _ _ rfl hs
              | exact resInv_err _ _ hs
  | EndsWith =>
    simp only [evalDispatch]
    cases args with
    | nil => exact resInv_err _ _ hs
    | cons a rest =>
      cases rest with
      | nil => exact resInv_err _ _ hs
      | cons b rest2 =>
        cases rest2 with
        | cons c rest3 => exact resInv_err _ _ hs
        | nil =>
          cases a <;> cases b <;>
            first
              | exact resInv_ok _ _ rfl hs
              | exact resInv_err _ _ hs
  | GetSub =>
    simp only [evalDispatch]
    cases args with
    | nil => exact resInv_err _ _ hs
    | cons a rest =>
      cases rest with
      | cons b rest2 => exact resInv_err _ _ hs
      | nil =>
        cases a
        case text sub =>
          cases hdb : s.db with
          | none => exact resInv_err _ _ hs
          | some dbm =>
            dsimp only
            cases hr : (interp ifuel dbm s.interpSet (templCarrot :: sub)).res with
            | ok o => exact resInv_ok _ _ rfl hs
            | error e =>
              cases e with
              | loop => exact resInv_err _ _ hs
              | fuelOut => exact resInv_fuelOut
        all_goals exact resInv_err _ _ hs
  | NewLine =>
    simp only [evalDispatch]
    cases args with
    | nil => exact resInv_ok _ _ rfl hs
    | cons a rest => exact resInv_err _ _ hs
  | Index =>
    have hres : ∀ v ∈ args, resultOk v = true :=
      fun v hv => argOk_nonlazy .Index v rfl (hargs v hv)
    simp only [evalDispatch]
    cases args with
    | nil => exact resInv_err _ _ hs
    | cons a rest =>
      cases rest with
      | nil => exact resInv_err _ _ hs
      | cons b rest2 =>
        cases rest2 with
        | cons c rest3 => exact resInv_err _ _ hs
        | nil =>
          cases a
          case int i =>
            cases b
            case text t =>
              dsimp only
              cases hg : t.get? (asUsize i) with
              | some ch => exact resInv_ok _ _ rfl hs
              | none => exact resInv_err _ _ hs
            case list l =>
              dsimp only
              cases hg : l.get? (asUsize i) with
              | some v =>
                have hl : resultOk (.list l) = true := hres _ (by simp)
                have hv : storable v = true := by
                  apply storableList_mem l hl v
                  have hg' : l[asUsize i]? = some v := by
                    simpa [List.get?_eq_getElem?] using hg
                  exact List.getElem?_mem hg'
                exact resInv_ok _ _ (storable_resultOk v hv) hs
              | none => exact resInv_err _ _ hs
            all_goals exact resInv_err _ _ hs
          all_goals exact resInv_err _ _ hs
  | Slice =>
    have hres : ∀ v ∈ args, resultOk v = true :=
      fun v hv => argOk_nonlazy .Slice v rfl (hargs v hv)
    simp only [evalDispatch]
    cases args with
    | nil => exact resInv_err _ _ hs
    | cons a rest =>
      cases rest with
      | nil => exact resInv_err _ _ hs
      | cons b rest2 =>
        cases rest2 with
        | nil => exact resInv_err _ _ hs
        | cons c rest3 =>
          cases rest3 with
          | cons d rest4 => exact resInv_err _ _ hs
          | nil =>
            cases a
            case int ia =>
              cases b
              case int ib =>
                cases c
                case text t =>
                  dsimp only
                  split
                  · exact resInv_err _ _ hs
                  split
                  · exact resInv_err _ _ hs
                  · exact resInv_ok _ _ rfl hs
                case list l =>
                  have hl : resultOk (.list l) = true := hres _ (by simp)
                  dsimp only
                  split
                  · exact resInv_err _ _ hs
                  split
                  · exact resInv_err _ _ hs
                  · exact resInv_ok _ _ (storableList_slice l _ _ hl) hs
                all_goals exact resInv_err _ _ hs
              all_goals exact resInv_err _ _ hs
            all_goals exact resInv_err _ _ hs
  | Length =>
    simp only [evalDispatch]
    cases args with
    | nil => exact resInv_err _ _ hs
    | cons a rest =>
      cases rest with
      | cons b rest2 => exact resInv_err _ _ hs
      | nil =>
        cases a
        case text t => exact resInv_ok _ _ rfl hs
        case list l => exact resInv_ok _ _ rfl hs
        all_goals exact resInv_err _ _ hs
  | Swap =>
    have hres : ∀ v ∈ args, resultOk v = true :=
      fun v hv => argOk_nonlazy .Swap v rfl (hargs v hv)
    simp only [evalDispatch]
    cases args with
    | nil => exact resInv_err _ _ hs
    | cons a rest =>
      cases rest with
      | nil => exact resInv_err _ _ hs
      | cons b rest2 =>
        cases rest2 with
        | nil => exact resInv_err _ _ hs
        | cons c rest3 =>
          cases rest3 with
          | cons d rest4 => exact resInv_err _ _ hs
          | nil =>
            cases a
            case int ia =>
              cases b
              case int ib =>
                cases c
                case text t =>
                  dsimp only
                  split
                  · exact resInv_err _ _ hs
                  · exact resInv_ok _ _ rfl hs
                case list l =>
                  have hl : resultOk (.list l) = true := hres _ (by simp)
                  dsimp only
                  split
                  · exact resInv_err _ _ hs
                  · exact resInv_ok _ _
                      (storableList_sub l _ (listSwap_mem l _ _) hl) hs
                all_goals exact resInv_err _ _ hs
              all_goals exact resInv_err _ _ hs
            all_goals exact resInv_err _ _ hs
  | Insert =>
    have hres : ∀ v ∈ args, resultOk v = true :=
      fun v hv => argOk_nonlazy .Insert v rfl (hargs v hv)
    simp only [evalDispatch]
    cases args with
    | nil => exact resInv_err _ _ hs
    | cons v0 rest =>
      cases rest with
      | nil => exact resInv_err _ _ hs
      | cons b rest2 =>
        cases rest2 with
        | nil => exact resInv_err _ _ hs
        | cons c rest3 =>
          cases rest3 with
          | cons d rest4 => exact resInv_err _ _ hs
          | nil =>
            cases b
            case int i =>
              cases c
              case text t =>
                cases v0
                case text vt =>
                  dsimp only
                  split
                  · exact resInv_err _ _ hs
                  · exact resInv_ok _ _ rfl hs
                all_goals exact resInv_err _ _ hs
              case list l =>
                have hl : resultOk (.list l) = true := hres _ (by simp)
                cases v0
                case ident t2 => exact resInv_err _ _ hs
                case none => exact resInv_err _ _ hs
                case cmd c2 => exact absurd (hres (.cmd c2) (by simp)) (by simp [resultOk])
                case text vt =>
                  dsimp only
                  split
                  · exact resInv_err _ _ hs
                  · exact resInv_ok _ _ (storableList_insertAt l _ _ hl rfl) hs
                case int n =>
                  dsimp only
                  split
                  · exact resInv_err _ _ hs
                  · exact resInv_ok _ _ (storableList_insertAt l _ _ hl rfl) hs
                case float q =>
                  dsimp only
                  split
                  · exact resInv_err _ _ hs
                  · exact resInv_ok _ _ (storableList_insertAt l _ _ hl rfl) hs
                case bool bb =>
                  dsimp only
                  split
                  · exact resInv_err _ _ hs
                  · exact resInv_ok _ _ (storableList_insertAt l _ _ hl rfl) hs
                case list l2 =>
                  have hv2 : resultOk (.list l2) = true := hres _ (by simp)
                  dsimp only
                  split
                  · exact resInv_err _ _ hs
                  · exact resInv_ok _ _ (storableList_insertAt l _ _ hl hv2) hs
              all_goals exact resInv_err _ _ hs
            all_goals exact resInv_err _ _ hs
  | Remove =>
    have hres : ∀ v ∈ args, resultOk v = true :=
      fun v hv => argOk_nonlazy .Remove v rfl (hargs v hv)
    simp only [evalDispatch]
    cases args with
    | nil => exact resInv_err _ _ hs
    | cons a rest =>
      cases rest with
      | nil => exact resInv_err _ _ hs
      | cons b rest2 =>
        cases rest2 with
        | cons c rest3 => exact resInv_err _ _ hs
        | nil =>
          cases a
          case int i =>
            cases b
            case text t =>
              dsimp only
              split
              · exact resInv_err _ _ hs
              · exact resInv_ok _ _ rfl hs
            case list l =>
              have hl : resultOk (.list l) = true := hres _ (by simp)
              dsimp only
              split
              · exact resInv_err _ _ hs
              · exact resInv_ok _ _ (storableList_removeAt l _ hl) hs
            all_goals exact resInv_err _ _ hs
          all_goals exact resInv_err _ _ hs
  | Replace =>
    have hres : ∀ v ∈ args, resultOk v = true :=
      fun v hv => argOk_nonlazy .Replace v rfl (hargs v hv)
    simp only [evalDispatch]
    cases args with
    | nil => exact resInv_err _ _ hs
    | cons v0 rest =>
      cases rest with
      | nil => exact resInv_err _ _ hs
      | cons b rest2 =>
        cases rest2 with
        | nil => exact resInv_err _ _ hs
        | cons c rest3 =>
          cases rest3 with
          | cons d rest4 => exact resInv_err _ _ hs
          | nil =>
            cases b
            case int i =>
              cases c
              case text t =>
                cases v0
                case text vt =>
                  dsimp only
                  split
                  · exact resInv_err _ _ hs
                  · exact resInv_ok _ _ rfl hs
                all_goals exact resInv_err _ _ hs
              case list l =>
                have hl : resultOk (.list l) = true := hres _ (by simp)
                cases v0
                case ident t2 => exact resInv_err _ _ hs
                case none => exact resInv_err _ _ hs
                case cmd c2 => exact absurd (hres (.cmd c2) (by simp)) (by simp [resultOk])
                case text vt =>
                  dsimp only
                  split
                  · exact resInv_err _ _ hs
                  · exact resInv_ok _ _ (storableList_set l _ _ hl rfl) hs
                case int n =>
                  dsimp only
                  split
                  · exact resInv_err _ _ hs
                  · exact resInv_ok _ _ (storableList_set l _ _ hl rfl) hs
                case float q =>
                  dsimp only
                  split
                  · exact resInv_err _ _ hs
                  · exact resInv_ok _ _ (storableList_set l _ _ hl rfl) hs
                case bool bb =>
                  dsimp only
                  split
                  · exact resInv_err _ _ hs
                  · exact resInv_ok _ _ (storableList_set l _ _ hl rfl) hs
                case list l2 =>
                  have hv2 : resultOk (.list l2) = true := hres _ (by simp)
                  dsimp only
                  split
                  · exact resInv_err _ _ hs
                  · exact resInv_ok _ _ (storableList_set l _ _ hl hv2) hs
              all_goals exact resInv_err _ _ hs
            all_goals exact resInv_err _ _ hs

/-- The store invariant holds of every run of the evaluator, at every
fuel. -/
theorem evalCmd_evOk : ∀ f : Nat, EvOk (evalCmd f) := by
  intro f
  induction f with
  | zero =>
    intro c s _ _
    show ResInv (evalCmd 0 c s)
    exact resInv_fuelOut
  | succ f ih =>
    intro c s hc hs
    show ResInv (evalCmd (f + 1) c s)
    cases c with
    | mk ct cargs =>
      have hwa : wfArgs cargs = true := by simpa [wfCmd] using hc
      have hinv := evalArgsWith_inv (evalCmd f) ih ct cargs 0 false s hwa hs
      rw [evalCmd_succ]
      simp only [Cmd.ct, Cmd.args]
      cases hargsr : evalArgsWith (evalCmd f) ct cargs 0 false s with
      | ok vs hfl s' =>
        obtain ⟨hs', hvs⟩ := hinv.1 vs hfl s' hargsr
        exact evalDispatch_inv (evalCmd f) ih (f + 1) ct vs hfl s' hs' hvs
      | err e s' => exact resInv_err _ _ (hinv.2 e s' hargsr)
      | fuelOut => exact resInv_fuelOut

theorem wfArgs_append (xs ys : List Val) :
    wfArgs (xs ++ ys) = (wfArgs xs && wfArgs ys) := by
  induction xs with
  | nil => simp [wfArgs]
  | cons v vs ih => simp [wfArgs, ih, Bool.and_assoc]

theorem pushArg_wf (stack : List (Cmd × Nat)) (v : Val)
    (hstack : ∀ p ∈ stack, wfCmd p.1 = true) (hv : wfVal v = true) :
    ∀ p ∈ pushArg stack v, wfCmd p.1 = true := by
  intro p hp
  cases stack with
  | nil =>
    rw [pushArg] at hp
    cases hp
  | cons q qs =>
    obtain ⟨c, ti⟩ := q
    rw [pushArg] at hp
    rcases List.mem_cons.mp hp with rfl | hp
    · have hc : wfCmd c = true := hstack (c, ti) (List.mem_cons_self _ _)
      obtain ⟨cct, cargs⟩ := c
      have hca : wfArgs cargs = true := by simpa [wfCmd] using hc
      show wfCmd (.mk (Cmd.mk cct cargs).ct ((Cmd.mk cct cargs).args ++ [v])) = true
      simp [Cmd.ct, Cmd.args, wfCmd, wfArgs_append, wfArgs, hca, hv]
    · exact hstack p (List.mem_cons_of_mem _ hp)

/-- Every command the parser builds is well-shaped: arguments are
literals, identifiers or nested commands (never `List` or `None`). -/
theorem parseLoop_wf (toks : List Token) :
    ∀ (rest : List Token) (i : Nat) (stack : List (Cmd × Nat)) (cmds : List Cmd)
      (out : List Cmd),
      (∀ p ∈ stack, wfCmd p.1 = true) → (∀ c ∈ cmds, wfCmd c = true) →
      parseLoop toks rest i stack cmds = .ok out →
      ∀ c ∈ out, wfCmd c = true := by
  intro rest
  induction rest with
  | nil =>
    intro i stack cmds out hstack hcmds h
    rw [parseLoop, parseEnd.eq_def] at h
    cases stack with
    | nil =>
      cases h
      exact hcmds
    | cons q stack' =>
      dsimp only at h
      cases h
  | cons t rest ih =>
    intro i stack cmds out hstack hcmds h
    simp only [parseLoop] at h
    cases ht : t.tokenType
    all_goals rw [ht] at h
    all_goals dsimp only at h
    case openingQuote =>
      split at h
      · cases h
      split at h
      · cases h
      exact ih (i + 1) stack cmds out hstack hcmds h
    case closingQuote =>
      split at h
      · cases h
      split at h
      · cases h
      split at h
      · cases h
      exact ih (i + 1) stack cmds out hstack hcmds h
    case openingParenthesis =>
      split at h
      · cases h
      exact ih (i + 1) stack cmds out hstack hcmds h
    case closingParenthesis =>
      cases stack with
      | nil =>
        dsimp only at h
        cases h
      | cons q stack' =>
        obtain ⟨c, ti⟩ := q
        dsimp only at h
        split at h
        · refine ih (i + 1) _ _ out ?_ ?_ h
          · intro p hp
            exact hstack p (List.mem_cons_of_mem _ hp)
          · intro x hx
            rcases List.mem_append.mp hx with hx | hx
            · exact hcmds x hx
            · rw [List.mem_singleton.mp hx]
              exact hstack (c, ti) (List.mem_cons_self _ _)
        · refine ih (i + 1) _ _ out ?_ hcmds h
          apply pushArg_wf stack' _ (fun p hp => hstack p (List.mem_cons_of_mem _ hp))
          have hc : wfCmd c = true := hstack (c, ti) (List.mem_cons_self _ _)
          simpa [wfVal] using hc
    case comma =>
      split at h
      · cases h
      exact ih (i + 1) stack cmds out hstack hcmds h
    case command =>
      split at h
      · cases h
      split at h
      · cases h
      cases hct : ctFromStr t.value with
      | error e =>
        rw [hct] at h
        cases h
      | ok ct =>
        rw [hct] at h
        dsimp only at h
        refine ih (i + 1) _ _ out ?_ hcmds h
        intro p hp
        rcases List.mem_cons.mp hp with rfl | hp
        · simp [wfCmd, wfArgs]
        · exact hstack p hp
    case text =>
      split at h
      · cases h
      split at h
      · cases h
      split at h
      · cases h
      refine ih (i + 1) _ _ out ?_ hcmds h
      exact pushArg_wf stack _ hstack (by simp [wfVal])
    case number =>
      split at h
      · cases h
      split at h
      · cases h
      cases hn : parseI64 t.value with
      | some n =>
        rw [hn] at h
        dsimp only at h
        refine ih (i + 1) _ _ out ?_ hcmds h
        exact pushArg_wf stack _ hstack (by simp [wfVal])
      | none =>
        rw [hn] at h
        dsimp only at h
        refine ih (i + 1) _ _ out ?_ hcmds h
        exact pushArg_wf stack _ hstack (by simp [wfVal])
    case identifier =>
      split at h
      · cases h
      split at h
      · cases h
      refine ih (i + 1) _ _ out ?_ hcmds h
      exact pushArg_wf stack _ hstack (by simp [wfVal])
    case keyword =>
      split at h
      · cases h
      split at h
      · cases h
      split at h
      · refine ih (i + 1) _ _ out ?_ hcmds h
        exact pushArg_wf stack _ hstack (by simp [wfVal])
      split at h
      · refine ih (i + 1) _ _ out ?_ hcmds h
        exact pushArg_wf stack _ hstack (by simp [wfVal])
      · cases h

theorem parse_wf (toks : List Token) (cmds : List Cmd) (h : parse toks = .ok cmds) :
    ∀ c ∈ cmds, wfCmd c = true := by
  rw [parse] at h
  exact parseLoop_wf toks toks 0 [] [] cmds (by simp) (by simp) h

/-- **C8 counterexample**: the claim lists `None` among the storable
kinds, but `Copy` rejects a `None` first argument with a typed error:
`copy(print(), x)` evaluates the nested `print()` to `None` and then
fails with `first argument must not be of type None` instead of storing
it. -/
theorem C8_counterexample :
    evalCmd 2 (.mk .Copy [.cmd (.mk .Print []), .ident "x".data]) initState =
      .err (genErr .Copy ERROR_ARG_ONE_MUST_NOT_BE_NONE) initState := rfl

/-- **C8 (amended)**: exactly `Text`, `Int`, `Float`, `Bool` and `List`
(of storable elements) are storable — `Identifier`, `Command` and also
`None` are never persisted.  (a) the kind classification of
`storable`; (b) `Copy` rejects `Identifier` and `None` first arguments
with typed errors; (c) `Copy` accepts every storable value the byte
budget admits, recording it in the store; (d) every parsed program is
well-shaped; (e) on well-shaped commands the evaluator keeps every
store entry storable in every reachable state (started from a storable
store), and never returns a `Command` value — so no `Identifier` or
`Command` (or `None`) is ever persisted. -/
theorem C8_storable_invariant :
    ((∀ t, storable (.text t) = true) ∧ (∀ n, storable (.int n) = true) ∧
     (∀ q, storable (.float q) = true) ∧ (∀ b, storable (.bool b) = true) ∧
     (∀ l, storable (.list l) = storableList l) ∧
     (∀ t, storable (.ident t) = false) ∧ (∀ c, storable (.cmd c) = false) ∧
     storable .none = false) ∧
    (∀ (ev : Cmd → VmState → Res) (ifuel : Nat) (t id : List Char) (hf : Bool)
        (s : VmState),
      evalDispatch ev ifuel .Copy [.ident t, .ident id] hf s =
        .err (genErr .Copy ERROR_ARG_ONE_MUST_NOT_BE_IDENTIFIER) s ∧
      evalDispatch ev ifuel .Copy [.none, .ident id] hf s =
        .err (genErr .Copy ERROR_ARG_ONE_MUST_NOT_BE_NONE) s) ∧
    (∀ (ev : Cmd → VmState → Res) (ifuel : Nat) (v : Val) (id : List Char) (hf : Bool)
        (s : VmState) (m : VarMap), storable v = true → s.vars.insertVar id v = .ok m →
      evalDispatch ev ifuel .Copy [v, .ident id] hf s = .ok .none { s with vars := m }) ∧
    (∀ (toks : List Token) (cmds : List Cmd), parse toks = .ok cmds →
      ∀ c ∈ cmds, wfCmd c = true) ∧
    (∀ (f : Nat) (c : Cmd) (s : VmState), wfCmd c = true → stateOk s = true →
      (∀ (v : Val) (s' : VmState), evalCmd f c s = .ok v s' →
        resultOk v = true ∧ stateOk s' = true) ∧
      (∀ (e : List Char) (s' : VmState), evalCmd f c s = .err e s' →
        stateOk s' = true)) := by
  refine ⟨⟨fun t => rfl, fun n => rfl, fun q => rfl, fun b => rfl, fun l => rfl,
    fun t => rfl, fun c => rfl, rfl⟩, ?_, ?_, ?_, ?_⟩
  · intro ev ifuel t id hf s
    exact ⟨rfl, rfl⟩
  · intro ev ifuel v id hf s m hv hins
    cases v with
    | ident t => simp [storable] at hv
    | cmd c => simp [storable] at hv
    | none => simp [storable] at hv
    | text t =>
      simp only [evalDispatch]
      rw [hins]
    | int n =>
      simp only [evalDispatch]
      rw [hins]
    | float q =>
      simp only [evalDispatch]
      rw [hins]
    | bool b =>
      simp only [evalDispatch]
      rw [hins]
    | list l =>
      simp only [evalDispatch]
      rw [hins]
  · exact parse_wf
  · exact fun f c s hc hs => evalCmd_evOk f c s hc hs

/-- **C8 witness**: `copy(5, x)` stores the integer; a `None` first
argument is rejected; `print()` parses to a well-shaped command. -/
theorem C8_witness :
    evalDispatch (evalCmd 0) 1 .Copy [.int 5, .ident "x".data] false initState =
      .ok .none { initState with vars := ⟨[("x".data, .int 5)], 0⟩ } ∧
    evalDispatch (evalCmd 0) 1 .Copy [.none, .ident "x".data] false initState =
      .err (genErr .Copy ERROR_ARG_ONE_MUST_NOT_BE_NONE) initState ∧
    (∀ c ∈ [Cmd.mk .Print []], wfCmd c = true) :=
  ⟨C8_storable_invariant.2.2.1 (evalCmd 0) 1 (.int 5) "x".data false initState
      ⟨[("x".data, .int 5)], 0⟩ rfl rfl,
   (C8_storable_invariant.2.1 (evalCmd 0) 1 "y".data "x".data false initState).2,
   C8_storable_invariant.2.2.2.1
     [⟨.command, "print".data⟩, ⟨.openingParenthesis, ['(']⟩,
       ⟨.closingParenthesis, [')']⟩] [Cmd.mk .Print []] rfl⟩

end Funboy
